import Mathlib

/-!
# settings-service: a shallow embedding and its verified properties

The development embeds the parts of `librescoot/settings-service` that decide
the behaviour of the settings reconciliation engine:

* `internal/config/config.go`   (`Config`, `ParseRedisSettings`, `ToRedisFields`,
  `LoadFromFile`, `SaveToFile`),
* `internal/network/networkmanager.go` (`GetCurrentAPN`, `UpdateAPN`),
* `internal/redis/client.go`    (`FlushSettings`, `GetAllSettings`, `SetSettings`),
* `internal/service/service.go` (`LoadSettingsFromTOML`, `SaveSettingsToTOML`,
  `WatchSettings`, `updateAPNFromRedis`).

Modelling conventions.

* A Go `string` is the list of its characters.  Every slice the program takes
  (`field[:8]`, `field[8:]`, ...) is taken right after a matched ASCII prefix,
  where byte offsets and character offsets coincide.
* A Go `map[string]V` is an association list whose order is the (unspecified)
  iteration order of `range`; `m[k] = v` is `GoMap.set`.  A Go map never holds a
  key twice, which is the well-formedness condition `GoMap.WF`.
* The file system, the Redis server and `systemctl` are explicit state; the
  ways they can fail are flags of that state.
-/

namespace SettingsService

/-! ## Go strings -/

/-- A Go string, as the list of its characters. -/
abbrev GoString := List Char

/-- Go `strings.HasPrefix`. -/
def HasPrefix (s pre : GoString) : Bool := pre.isPrefixOf s

/-- Go `strings.TrimPrefix`. -/
def TrimPrefix (s pre : GoString) : GoString :=
  if HasPrefix s pre then s.drop pre.length else s

/-- Go `unicode.IsSpace`: the Latin-1 white space characters and the other code
points with the Unicode White_Space property. -/
def isSpace (c : Char) : Bool :=
  let n := c.toNat
  (0x09 ≤ n && n ≤ 0x0D) || n == 0x20 || n == 0x85 || n == 0xA0 || n == 0x1680 ||
  (0x2000 ≤ n && n ≤ 0x200A) || n == 0x2028 || n == 0x2029 || n == 0x202F ||
  n == 0x205F || n == 0x3000

/-- Go `strings.TrimSpace`: all leading and trailing white space removed. -/
def TrimSpace (s : GoString) : GoString :=
  ((s.dropWhile isSpace).reverse.dropWhile isSpace).reverse

/-- Go `strings.Split(s, sep)` for a one-character separator. -/
def Split : GoString → Char → List GoString
  | [], _ => [[]]
  | c :: cs, sep =>
    if c = sep then [] :: Split cs sep
    else match Split cs sep with
      | [] => [[c]]
      | l :: ls => (c :: l) :: ls

/-- Go `strings.Join(elems, sep)` for a one-character separator. -/
def Join : List GoString → Char → GoString
  | [], _ => []
  | [l], _ => l
  | l :: l2 :: ls, sep => l ++ sep :: Join (l2 :: ls) sep

/-! ## Go maps -/

/-- A Go `map[string]V`; the list order stands for the iteration order. -/
abbrev GoMap (V : Type) := List (GoString × V)

namespace GoMap

/-- The map read `m[k]` in its two-result form `v, exists := m[k]`. -/
def get {V : Type} : GoMap V → GoString → Option V
  | [], _ => none
  | (k', v) :: m, k => if k' = k then some v else get m k

/-- The map write `m[k] = v`. -/
def set {V : Type} : GoMap V → GoString → V → GoMap V
  | [], k, v => [(k, v)]
  | (k', v') :: m, k, v => if k' = k then (k, v) :: m else (k', v') :: set m k v

/-- The keys of a map, in iteration order. -/
def keys {V : Type} (m : GoMap V) : List GoString := m.map Prod.fst

/-- No key is held twice. -/
def WF {V : Type} (m : GoMap V) : Prop := m.keys.Nodup

end GoMap

/-! ## `internal/config/config.go` -/

/-- A value of type `interface{}` as found in a configuration table.  `other`
stands for the remaining TOML values (floats, dates, arrays, sub-tables), kept
by the text `%v` prints for them. -/
inductive Value where
  | str (s : GoString)
  | int (i : Int)
  | bool (b : Bool)
  | other (shown : GoString)
  deriving DecidableEq, Repr

/-- The text of `fmt.Sprintf("%v", value)`. -/
def Value.sprint : Value → GoString
  | .str s => s
  | .int i => (toString i).toList
  | .bool b => if b then "true".toList else "false".toList
  | .other shown => shown

/-- The `Config` struct: one table per namespace. -/
structure Config where
  Scooter : GoMap Value
  Cellular : GoMap Value
  Updates : GoMap Value
  Dashboard : GoMap Value
  deriving DecidableEq, Repr

def scooterPrefix : GoString := "scooter.".toList
def cellularPrefix : GoString := "cellular.".toList
def updatesPrefix : GoString := "updates.".toList
def dashboardPrefix : GoString := "dashboard.".toList

/-- The guard `len(field) > n && field[:n] == pre` of `ParseRedisSettings`, with
`n` the length of `pre`: the field is `pre` followed by a non-empty key. -/
def hasKey (pre field : GoString) : Bool :=
  decide (field.length > pre.length) && field.take pre.length == pre

/-- The field name begins with one of the four namespace prefixes. -/
def nsPrefixed (field : GoString) : Bool :=
  HasPrefix field scooterPrefix || HasPrefix field cellularPrefix ||
  HasPrefix field updatesPrefix || HasPrefix field dashboardPrefix

/-- The field name passes one of the four guards of `ParseRedisSettings`: it is a
namespace prefix followed by a non-empty key. -/
def recognised (field : GoString) : Bool :=
  hasKey scooterPrefix field || hasKey cellularPrefix field ||
  hasKey updatesPrefix field || hasKey dashboardPrefix field

/-- The body of the `for field, value := range settings` loop of
`ParseRedisSettings`. -/
def parseField (config : Config) (entry : GoString × GoString) : Config :=
  let field := entry.1
  let value := entry.2
  if field.length > 8 && field.take 8 == scooterPrefix then
    { config with Scooter := config.Scooter.set (field.drop 8) (.str value) }
  else if field.length > 9 && field.take 9 == cellularPrefix then
    { config with Cellular := config.Cellular.set (field.drop 9) (.str value) }
  else if field.length > 8 && field.take 8 == updatesPrefix then
    { config with Updates := config.Updates.set (field.drop 8) (.str value) }
  else if field.length > 10 && field.take 10 == dashboardPrefix then
    { config with Dashboard := config.Dashboard.set (field.drop 10) (.str value) }
  else config

/-- `ParseRedisSettings`: the hash fields partitioned into the four tables. -/
def ParseRedisSettings (settings : GoMap GoString) : Config :=
  settings.foldl parseField
    { Scooter := [], Cellular := [], Updates := [], Dashboard := [] }

/-- One `for key, value := range table` loop of `ToRedisFields`:
`fields[pre + key] = fmt.Sprintf("%v", value)`. -/
def flattenTable (pre : GoString) (fields : GoMap Value) (table : GoMap Value) :
    GoMap Value :=
  table.foldl (fun acc kv => acc.set (pre ++ kv.1) (.str kv.2.sprint)) fields

/-- `(*Config).ToRedisFields`: the four tables flattened to dotted fields. -/
def ToRedisFields (c : Config) : GoMap Value :=
  let fields : GoMap Value := []
  let fields := flattenTable scooterPrefix fields c.Scooter
  let fields := flattenTable cellularPrefix fields c.Cellular
  let fields := flattenTable updatesPrefix fields c.Updates
  let fields := flattenTable dashboardPrefix fields c.Dashboard
  fields

/-! ## Errors, log lines and files -/

/-- The errors the program can return, named after the operation that failed. -/
inductive Err where
  | notExist        -- os.ErrNotExist
  | readToml        -- "failed to read TOML file" / "failed to parse TOML file"
  | saveToml        -- the three failures of SaveToFile
  | flush           -- "failed to flush settings"
  | getSettings     -- "failed to get settings from Redis"
  | writeSettings   -- "failed to write settings to Redis"
  | readProfile     -- "failed to read NetworkManager connection file"
  | writeProfile    -- "failed to write NetworkManager connection file"
  | restart         -- "failed to restart NetworkManager"
  deriving DecidableEq, Repr

/-- Go `os.IsNotExist`. -/
def Err.isNotExist : Err → Bool
  | .notExist => true
  | _ => false

/-- The calls of `log.Printf` and `log.Println`, one constructor per call site. -/
inductive LogEvent where
  | profileMissing                        -- networkmanager.go, UpdateAPN
  | apnLineNotFound
  | apnUpdated (apn : GoString)
  | restarting
  | restarted
  | flushing                              -- service.go, LoadSettingsFromTOML
  | tomlMissing
  | emptyScooter
  | loaded (n : Nat)
  | apnReadError (e : Err)
  | apnMismatch (current : GoString) (apn : Value)
  | apnStartupError (e : Err)
  | apnSynchronized (apn : Value)
  | retrieved (n : Nat)                   -- service.go, SaveSettingsToTOML
  | setting (k v : GoString)
  | ignoringField (field : GoString)
  | saved (n : Nat)
  | received (payload : GoString)         -- service.go, WatchSettings
  | saveError (e : Err)
  | apnSettingsError (e : Err)            -- service.go, updateAPNFromRedis
  | apnUpdateError (e : Err)
  deriving DecidableEq, Repr

/-- What a fixed path holds: nothing, something that cannot be read (or parsed),
or a content. -/
inductive FileState (α : Type) where
  | absent
  | unreadable
  | present (content : α)
  deriving DecidableEq, Repr

/-! ## `internal/network/networkmanager.go` -/

/-- The network side of the world: the profile file at `NMConnectionPath`,
whether `os.WriteFile` and `systemctl restart NetworkManager` fail, and what
has been done so far. `updateCalls` records the argument of every call of
`UpdateAPN`, `restarts` counts the runs of the restart command. -/
structure NetEnv where
  profile : FileState GoString
  writeFails : Bool
  restartFails : Bool
  restarts : Nat
  updateCalls : List GoString
  log : List LogEvent
  deriving DecidableEq, Repr

def gsmHeader : GoString := "[gsm]".toList
def sectionOpen : GoString := "[".toList
def apnKey : GoString := "apn=".toList

/-- The `for _, line := range lines` loop of `GetCurrentAPN`, started with
`inGsmSection`.  `some v` is the `return` inside the loop, `none` is leaving the
loop by `break` or at the end of the lines. -/
def getScan : List GoString → Bool → Option GoString
  | [], _ => none
  | line :: rest, inGsmSection =>
    let trimmed := TrimSpace line
    if trimmed = gsmHeader then getScan rest true
    else if inGsmSection && HasPrefix trimmed sectionOpen then none
    else if inGsmSection && HasPrefix trimmed apnKey then some (TrimPrefix trimmed apnKey)
    else getScan rest inGsmSection

/-- `GetCurrentAPN`. -/
def GetCurrentAPN (env : NetEnv) : Except Err GoString :=
  match env.profile with
  | .absent => .ok []
  | .unreadable => .error .readProfile
  | .present content =>
    match getScan (Split content '\n') false with
    | some apn => .ok apn
    | none => .ok []

/-- The `for i, line := range lines` loop of `UpdateAPN`, started with
`inGsmSection` and `updated`: the lines after the loop and the final `updated`. -/
def updateScan (apn : GoString) : List GoString → Bool → Bool → List GoString × Bool
  | [], _, updated => ([], updated)
  | line :: rest, inGsmSection, updated =>
    let trimmed := TrimSpace line
    if trimmed = gsmHeader then
      let r := updateScan apn rest true updated
      (line :: r.1, r.2)
    else if inGsmSection && HasPrefix trimmed sectionOpen then
      let r := updateScan apn rest false updated
      (line :: r.1, r.2)
    else if inGsmSection && HasPrefix trimmed apnKey then
      let r := updateScan apn rest inGsmSection true
      ((apnKey ++ apn) :: r.1, r.2)
    else
      let r := updateScan apn rest inGsmSection updated
      (line :: r.1, r.2)

/-- `UpdateAPN`.  A failing `os.WriteFile` is taken to leave the file as it
was. -/
def UpdateAPN (apn : GoString) (env : NetEnv) : Except Err Unit × NetEnv :=
  let env : NetEnv := { env with updateCalls := env.updateCalls ++ [apn] }
  match env.profile with
  | .absent => (.ok (), { env with log := env.log ++ [.profileMissing] })
  | .unreadable => (.error .readProfile, env)
  | .present content =>
    let r := updateScan apn (Split content '\n') false false
    if !r.2 then (.ok (), { env with log := env.log ++ [.apnLineNotFound] })
    else
      let updatedContent := Join r.1 '\n'
      if env.writeFails then (.error .writeProfile, env)
      else
        let env : NetEnv := { env with profile := .present updatedContent,
                                       log := env.log ++ [.apnUpdated apn, .restarting] }
        let env : NetEnv := { env with restarts := env.restarts + 1 }
        if env.restartFails then (.error .restart, env)
        else (.ok (), { env with log := env.log ++ [.restarted] })

/-- Line `i` of `lines` lies in a `[gsm]` section: some earlier line `j` is the
header `[gsm]` (after trimming) and no line strictly between `j` and `i` opens
a section. -/
def gsmSectionReaches (lines : List GoString) (i : Nat) : Prop :=
  ∃ j, j < i ∧ TrimSpace (lines.getD j []) = gsmHeader ∧
    ∀ l ∈ (lines.take i).drop (j + 1), HasPrefix (TrimSpace l) sectionOpen = false

/-- Line `i` of `lines` is an `apn=` line inside a `[gsm]` section. -/
def isApnLineInGsm (lines : List GoString) (i : Nat) : Prop :=
  i < lines.length ∧ HasPrefix (TrimSpace (lines.getD i [])) apnKey = true ∧
    gsmSectionReaches lines i

/-- The value of `inGsmSection` after the loop of `UpdateAPN` has seen `line`. -/
def nextInGsm (inGsmSection : Bool) (line : GoString) : Bool :=
  if TrimSpace line = gsmHeader then true
  else if inGsmSection && HasPrefix (TrimSpace line) sectionOpen then false
  else inGsmSection

/-- Line `i` is reached with `inGsmSection` set when the loop of `UpdateAPN`
starts with `inGsmSection = b`: either `b` holds and no earlier line opens a
section, or line `i` lies in a `[gsm]` section of `lines`. -/
def reaches (b : Bool) (lines : List GoString) (i : Nat) : Prop :=
  (b = true ∧ ∀ l ∈ lines.take i, HasPrefix (TrimSpace l) sectionOpen = false) ∨
    gsmSectionReaches lines i

/-! ## `internal/redis/client.go` and the file part of `config.go` -/

/-- The world of the settings service: the Redis hash `settings`, the TOML file
at `TomlFilePath`, the network side, the log, and which operations fail. -/
structure World where
  store : GoMap GoString
  flushFails : Bool
  getFails : Bool
  setFails : Bool
  toml : FileState Config
  saveFails : Bool
  net : NetEnv
  log : List LogEvent
  deriving DecidableEq, Repr

/-- One more line in the log. -/
def World.logLine (w : World) (e : LogEvent) : World := { w with log := w.log ++ [e] }

/-- The lines logged between the world `w` and the later world `w'`. -/
def logged (w w' : World) : List LogEvent := w'.log.drop w.log.length

/-- The text the Redis client sends for an `interface{}` argument of `HSet`:
a string as it is, the other scalars in the client's own format. -/
def Value.wire : Value → GoString
  | .str s => s
  | .int i => (toString i).toList
  | .bool b => if b then "1".toList else "0".toList
  | .other shown => shown

/-- `(*Client).FlushSettings`: `DEL settings`. -/
def FlushSettings (w : World) : Except Err Unit × World :=
  if w.flushFails then (.error .flush, w) else (.ok (), { w with store := [] })

/-- `(*Client).GetAllSettings`: `HGETALL settings`. -/
def GetAllSettings (w : World) : Except Err (GoMap GoString) :=
  if w.getFails then .error .getSettings else .ok w.store

/-- `(*Client).SetSettings`: one `HSET` per field, sent in one pipeline.  A failing
pipeline is taken to apply nothing. -/
def SetSettings (fields : GoMap Value) (w : World) : Except Err Unit × World :=
  if fields.length == 0 then (.ok (), w)
  else if w.setFails then (.error .writeSettings, w)
  else (.ok (), { w with store := fields.foldl (fun st fv => st.set fv.1 fv.2.wire) w.store })

/-- `LoadFromFile`. -/
def LoadFromFile (w : World) : Except Err Config :=
  match w.toml with
  | .absent => .error .notExist
  | .unreadable => .error .readToml
  | .present cfg => .ok cfg

/-- `SaveToFile`.  A failure is taken to leave the file as it was. -/
def SaveToFile (config : Config) (w : World) : Except Err Unit × World :=
  if w.saveFails then (.error .saveToml, w) else (.ok (), { w with toml := .present config })

/-! ## `internal/service/service.go` -/

def cellularApnField : GoString := "cellular.apn".toList
def SettingsChannel : GoString := "settings".toList

/-- The block "Check if APN needs to be synchronized on startup" of
`LoadSettingsFromTOML` (lines 76 to 89). -/
def syncAPNOnStartup (cfg : Config) (w : World) : World :=
  match cfg.Cellular.get "apn".toList with
  | none => w
  | some apn =>
    if apn ≠ .str [] then
      match GetCurrentAPN w.net with
      | .error e => w.logLine (.apnReadError e)
      | .ok currentAPN =>
        if currentAPN ≠ apn.sprint then
          let w := w.logLine (.apnMismatch currentAPN apn)
          let r := UpdateAPN apn.sprint w.net
          let w := { w with net := r.2 }
          match r.1 with
          | .error e => w.logLine (.apnStartupError e)
          | .ok _ => w
        else w.logLine (.apnSynchronized apn)
    else w

/-- `(*SettingsService).LoadSettingsFromTOML`. -/
def LoadSettingsFromTOML (w : World) : Except Err Unit × World :=
  let w := w.logLine .flushing
  match FlushSettings w with
  | (.error e, w) => (.error e, w)
  | (.ok _, w) =>
    match LoadFromFile w with
    | .error e =>
      if e.isNotExist then (.ok (), w.logLine .tomlMissing) else (.error e, w)
    | .ok cfg =>
      let w := if cfg.Scooter.length == 0 then w.logLine .emptyScooter else w
      let fields := ToRedisFields cfg
      match (if fields.length > 0 then SetSettings fields w else (.ok (), w)) with
      | (.error e, w) => (.error e, w)
      | (.ok _, w) =>
        let w := w.logLine (.loaded fields.length)
        (.ok (), syncAPNOnStartup cfg w)

/-- `(*SettingsService).SaveSettingsToTOML`. -/
def SaveSettingsToTOML (w : World) : Except Err Unit × World :=
  match GetAllSettings w with
  | .error e => (.error e, w)
  | .ok settings =>
    let w := w.logLine (.retrieved settings.length)
    let w := settings.foldl (fun w kv => w.logLine (.setting kv.1 kv.2)) w
    let w := settings.foldl (fun w kv =>
      if !HasPrefix kv.1 scooterPrefix && !HasPrefix kv.1 cellularPrefix then
        w.logLine (.ignoringField kv.1)
      else w) w
    let cfg := ParseRedisSettings settings
    match SaveToFile cfg w with
    | (.error e, w) => (.error e, w)
    | (.ok _, w) => (.ok (), w.logLine (.saved settings.length))

/-- The lines one pass of `SaveSettingsToTOML` logs before it writes the file,
as a list: the count, one line per field, one warning per field that carries
neither `scooter.` nor `cellular.`. -/
def passLog (store : GoMap GoString) : List LogEvent :=
  [LogEvent.retrieved store.length] ++ List.map (fun kv => LogEvent.setting kv.1 kv.2) store ++
    List.map (fun kv => LogEvent.ignoringField kv.1)
      (List.filter (fun kv => !HasPrefix kv.1 scooterPrefix && !HasPrefix kv.1 cellularPrefix)
        store)

/-- `(*SettingsService).updateAPNFromRedis`. -/
def updateAPNFromRedis (w : World) : World :=
  match GetAllSettings w with
  | .error e => w.logLine (.apnSettingsError e)
  | .ok settings =>
    match settings.get cellularApnField with
    | none => w
    | some apn =>
      if apn ≠ [] then
        let r := UpdateAPN apn w.net
        let w := { w with net := r.2 }
        match r.1 with
        | .error e => w.logLine (.apnUpdateError e)
        | .ok _ => w
      else w

/-- A pub/sub message as the watch loop uses it. -/
structure Message where
  Channel : GoString
  Payload : GoString
  deriving DecidableEq, Repr

/-- The `case msg := <-ch` branch of the `select` in `WatchSettings`. -/
def handleMessage (msg : Message) (w : World) : World :=
  if msg.Channel = SettingsChannel then
    let w := w.logLine (.received msg.Payload)
    let r := SaveSettingsToTOML w
    let w := match r.1 with
      | .error e => r.2.logLine (.saveError e)
      | .ok _ => r.2
    if msg.Payload = cellularApnField then updateAPNFromRedis w else w
  else w

/-- `(*SettingsService).WatchSettings`, run on the messages that arrive before
the context is cancelled. -/
def WatchSettings (msgs : List Message) (w : World) : World :=
  msgs.foldl (fun w msg => handleMessage msg w) w

/-! ## Worlds for examples -/

/-- A network side with the given profile file where nothing fails and nothing
has happened yet. -/
def quietNet (profile : FileState GoString) : NetEnv :=
  { profile := profile, writeFails := false, restartFails := false, restarts := 0,
    updateCalls := [], log := [] }

/-- A world with the given store, TOML file and profile file where nothing
fails and nothing has been logged yet. -/
def quietWorld (store : GoMap GoString) (toml : FileState Config)
    (profile : FileState GoString) : World :=
  { store := store, flushFails := false, getFails := false, setFails := false, toml := toml,
    saveFails := false, net := quietNet profile, log := [] }

/-- A configuration document whose only entry is `apn = "internet"` in the
cellular table. -/
def apnDocument : Config :=
  { Scooter := [], Cellular := [("apn".toList, .str "internet".toList)], Updates := [],
    Dashboard := [] }

/-- A world where nothing has failed yet, with an empty store, the document
`apnDocument` in the TOML file and a profile file whose `[gsm]` section holds
`apn=old`. -/
def staleApnWorld : World :=
  quietWorld [] (.present apnDocument) (.present "[gsm]\napn=old\n".toList)
/-! ## Lemmas on strings and maps -/

theorem scooterPrefix_eq : scooterPrefix = ['s','c','o','o','t','e','r','.'] := rfl
theorem cellularPrefix_eq : cellularPrefix = ['c','e','l','l','u','l','a','r','.'] := rfl
theorem updatesPrefix_eq : updatesPrefix = ['u','p','d','a','t','e','s','.'] := rfl
theorem dashboardPrefix_eq : dashboardPrefix = ['d','a','s','h','b','o','a','r','d','.'] := rfl

theorem hasPrefix_iff (s pre : GoString) : HasPrefix s pre = true ↔ ∃ t, s = pre ++ t := by
  unfold HasPrefix
  rw [List.isPrefixOf_iff_prefix]
  constructor
  · rintro ⟨t, rfl⟩; exact ⟨t, rfl⟩
  · rintro ⟨t, rfl⟩; exact ⟨t, rfl⟩

theorem hasKey_iff (pre f : GoString) :
    hasKey pre f = true ↔ ∃ key, key ≠ [] ∧ f = pre ++ key := by
  unfold hasKey
  simp only [Bool.and_eq_true, decide_eq_true_eq, beq_iff_eq]
  constructor
  · rintro ⟨hlen, htake⟩
    refine ⟨f.drop pre.length, ?_, ?_⟩
    · intro h
      have := List.drop_eq_nil_iff.mp h
      omega
    · conv_lhs => rw [← List.take_append_drop pre.length f, htake]
  · rintro ⟨key, hk, rfl⟩
    refine ⟨?_, by simp⟩
    have : 0 < key.length := List.length_pos.mpr hk
    simp; omega

theorem hasKey_append (pre key : GoString) : hasKey pre (pre ++ key) = !key.isEmpty := by
  cases key with
  | nil => simp [hasKey]
  | cons c cs => simp [hasKey]

namespace GoMap
variable {V : Type}

theorem get_set (m : GoMap V) (k k' : GoString) (v : V) :
    GoMap.get (GoMap.set m k v) k' = if k = k' then some v else GoMap.get m k' := by
  induction m with
  | nil => simp [set, get]
  | cons e m ih =>
    obtain ⟨k0, v0⟩ := e
    by_cases h : k0 = k
    · subst h
      by_cases h2 : k0 = k' <;> simp [set, get, h2]
    · simp only [set, h, if_false, get, ih]
      by_cases h2 : k0 = k'
      · subst h2; simp [h, Ne.symm h]
      · simp [h2]

theorem mem_keys_set (m : GoMap V) (k k' : GoString) (v : V) :
    k' ∈ GoMap.keys (GoMap.set m k v) ↔ k' = k ∨ k' ∈ GoMap.keys m := by
  induction m with
  | nil => simp only [GoMap.set, GoMap.keys, List.map_cons, List.map_nil, List.mem_cons,
      List.mem_nil_iff]
  | cons e m ih =>
    obtain ⟨k0, v0⟩ := e
    by_cases h : k0 = k
    · subst h
      simp only [GoMap.set, if_true, GoMap.keys, List.map_cons, List.mem_cons]
      tauto
    · simp only [GoMap.keys] at ih
      simp only [GoMap.set, h, if_false, GoMap.keys, List.map_cons, List.mem_cons, ih]
      tauto

theorem WF_cons (e : GoString × V) (m : GoMap V) :
    GoMap.WF (e :: m) ↔ e.1 ∉ GoMap.keys m ∧ GoMap.WF m := by
  simp only [GoMap.WF, GoMap.keys, List.map_cons, List.nodup_cons]

theorem WF_set (m : GoMap V) (k : GoString) (v : V) (h : GoMap.WF m) :
    GoMap.WF (GoMap.set m k v) := by
  induction m with
  | nil => simp only [GoMap.set, GoMap.WF, GoMap.keys, List.map_cons, List.map_nil,
      List.nodup_cons, List.not_mem_nil, not_false_eq_true, List.nodup_nil, and_self]
  | cons e m ih =>
    obtain ⟨k0, v0⟩ := e
    have h' := (WF_cons _ _).mp h
    by_cases hk : k0 = k
    · subst hk
      simp only [set, if_true]
      exact (WF_cons _ _).mpr h'
    · simp only [set, hk, if_false]
      refine (WF_cons _ _).mpr ⟨?_, ih h'.2⟩
      rw [mem_keys_set]
      simp only [not_or]
      exact ⟨hk, h'.1⟩

theorem get_eq_none_iff (m : GoMap V) (k : GoString) :
    GoMap.get m k = none ↔ k ∉ GoMap.keys m := by
  induction m with
  | nil => simp only [GoMap.get, GoMap.keys, List.map_nil, List.not_mem_nil, not_false_eq_true]
  | cons e m ih =>
    obtain ⟨k0, v0⟩ := e
    simp only [GoMap.keys] at ih
    by_cases h : k0 = k
    · subst h
      simp only [GoMap.get, if_true, GoMap.keys, List.map_cons, List.mem_cons, true_or,
        not_true_eq_false, reduceCtorEq]
    · simp only [GoMap.get, h, if_false, ih, GoMap.keys, List.map_cons, List.mem_cons,
        Ne.symm h, false_or]

theorem mem_of_get (m : GoMap V) (k : GoString) (v : V) (h : GoMap.get m k = some v) :
    (k, v) ∈ m := by
  induction m with
  | nil => simp [get] at h
  | cons e m ih =>
    obtain ⟨k0, v0⟩ := e
    by_cases hk : k0 = k
    · subst hk; simp [get] at h; simp [h]
    · simp [get, hk] at h; simp [ih h]

theorem mem_keys_of_mem (m : GoMap V) (k : GoString) (v : V) (h : (k, v) ∈ m) :
    k ∈ GoMap.keys m := by
  simp only [keys, List.mem_map]
  exact ⟨(k, v), h, rfl⟩

theorem get_of_mem (m : GoMap V) (k : GoString) (v : V) (hwf : GoMap.WF m) (h : (k, v) ∈ m) :
    GoMap.get m k = some v := by
  induction m with
  | nil => simp at h
  | cons e m ih =>
    obtain ⟨k0, v0⟩ := e
    have h' := (WF_cons _ _).mp hwf
    rcases List.mem_cons.mp h with heq | hmem
    · cases heq; simp [get]
    · have : k0 ≠ k := by
        rintro rfl
        exact h'.1 (mem_keys_of_mem _ _ _ hmem)
      simp [get, this, ih h'.2 hmem]

end GoMap

namespace GoMap
variable {V : Type}

theorem mem_set (m : GoMap V) (k : GoString) (v : V) (e : GoString × V)
    (h : e ∈ GoMap.set m k v) : e ∈ m ∨ e = (k, v) := by
  induction m with
  | nil =>
    simp only [GoMap.set, List.mem_singleton] at h
    exact Or.inr h
  | cons e0 m ih =>
    obtain ⟨k0, v0⟩ := e0
    by_cases hk : k0 = k
    · simp only [GoMap.set, hk, if_true, List.mem_cons] at h
      rcases h with h | h
      · exact Or.inr h
      · exact Or.inl (List.mem_cons_of_mem _ h)
    · simp only [GoMap.set, hk, if_false, List.mem_cons] at h
      rcases h with h | h
      · exact Or.inl (h ▸ List.mem_cons_self _ _)
      · rcases ih h with h | h
        · exact Or.inl (List.mem_cons_of_mem _ h)
        · exact Or.inr h

end GoMap

/-! ## Lemmas on `ParseRedisSettings` and `ToRedisFields` -/

theorem parseField_eq (cfg : Config) (e : GoString × GoString) :
    parseField cfg e =
      if hasKey scooterPrefix e.1 then
        { cfg with Scooter := GoMap.set cfg.Scooter (e.1.drop 8) (.str e.2) }
      else if hasKey cellularPrefix e.1 then
        { cfg with Cellular := GoMap.set cfg.Cellular (e.1.drop 9) (.str e.2) }
      else if hasKey updatesPrefix e.1 then
        { cfg with Updates := GoMap.set cfg.Updates (e.1.drop 8) (.str e.2) }
      else if hasKey dashboardPrefix e.1 then
        { cfg with Dashboard := GoMap.set cfg.Dashboard (e.1.drop 10) (.str e.2) }
      else cfg := rfl

theorem hasKey_clash (p q f : GoString) (h : ∀ a b : GoString, p ++ a ≠ q ++ b)
    (hp : hasKey p f = true) : hasKey q f = false := by
  by_contra hq
  obtain ⟨a, _, ha⟩ := (hasKey_iff p f).mp hp
  obtain ⟨b, _, hb⟩ := (hasKey_iff q f).mp (by simpa using hq)
  exact h a b (ha ▸ hb)

theorem clash_sc (a b : GoString) : scooterPrefix ++ a ≠ cellularPrefix ++ b := by
  simp [scooterPrefix_eq, cellularPrefix_eq]
theorem clash_su (a b : GoString) : scooterPrefix ++ a ≠ updatesPrefix ++ b := by
  simp [scooterPrefix_eq, updatesPrefix_eq]
theorem clash_sd (a b : GoString) : scooterPrefix ++ a ≠ dashboardPrefix ++ b := by
  simp [scooterPrefix_eq, dashboardPrefix_eq]
theorem clash_cu (a b : GoString) : cellularPrefix ++ a ≠ updatesPrefix ++ b := by
  simp [cellularPrefix_eq, updatesPrefix_eq]
theorem clash_cd (a b : GoString) : cellularPrefix ++ a ≠ dashboardPrefix ++ b := by
  simp [cellularPrefix_eq, dashboardPrefix_eq]
theorem clash_ud (a b : GoString) : updatesPrefix ++ a ≠ dashboardPrefix ++ b := by
  simp [updatesPrefix_eq, dashboardPrefix_eq]

theorem parseField_Scooter (cfg : Config) (e : GoString × GoString) :
    (parseField cfg e).Scooter =
      if hasKey scooterPrefix e.1 then
        GoMap.set cfg.Scooter (e.1.drop scooterPrefix.length) (.str e.2)
      else cfg.Scooter := by
  rw [parseField_eq]
  by_cases h1 : hasKey scooterPrefix e.1 = true
  · simp only [h1, if_true]; rfl
  · simp only [h1, if_false]
    split_ifs <;> rfl

theorem parseField_Cellular (cfg : Config) (e : GoString × GoString) :
    (parseField cfg e).Cellular =
      if hasKey cellularPrefix e.1 then
        GoMap.set cfg.Cellular (e.1.drop cellularPrefix.length) (.str e.2)
      else cfg.Cellular := by
  rw [parseField_eq]
  by_cases h2 : hasKey cellularPrefix e.1 = true
  · have h1 := hasKey_clash _ scooterPrefix e.1 (fun a b h => clash_sc b a h.symm) h2
    simp only [h1, h2, if_true]; rfl
  · simp only [h2, if_false]
    split_ifs <;> first | rfl | contradiction

theorem parseField_Updates (cfg : Config) (e : GoString × GoString) :
    (parseField cfg e).Updates =
      if hasKey updatesPrefix e.1 then
        GoMap.set cfg.Updates (e.1.drop updatesPrefix.length) (.str e.2)
      else cfg.Updates := by
  rw [parseField_eq]
  by_cases h3 : hasKey updatesPrefix e.1 = true
  · have h1 := hasKey_clash _ scooterPrefix e.1 (fun a b h => clash_su b a h.symm) h3
    have h2 := hasKey_clash _ cellularPrefix e.1 (fun a b h => clash_cu b a h.symm) h3
    simp only [h1, h2, h3, if_true]; rfl
  · simp only [h3, if_false]
    split_ifs <;> first | rfl | contradiction

theorem parseField_Dashboard (cfg : Config) (e : GoString × GoString) :
    (parseField cfg e).Dashboard =
      if hasKey dashboardPrefix e.1 then
        GoMap.set cfg.Dashboard (e.1.drop dashboardPrefix.length) (.str e.2)
      else cfg.Dashboard := by
  rw [parseField_eq]
  by_cases h4 : hasKey dashboardPrefix e.1 = true
  · have h1 := hasKey_clash _ scooterPrefix e.1 (fun a b h => clash_sd b a h.symm) h4
    have h2 := hasKey_clash _ cellularPrefix e.1 (fun a b h => clash_cd b a h.symm) h4
    have h3 := hasKey_clash _ updatesPrefix e.1 (fun a b h => clash_ud b a h.symm) h4
    simp only [h1, h2, h3, h4, if_true]; rfl
  · simp only [h4, if_false]
    split_ifs <;> first | rfl | contradiction

/-- What the fold of `parseField` leaves in one table, for a table `proj` that
`parseField` writes exactly on the guard of the prefix `pre`. -/
theorem get_fold_parseField (proj : Config → GoMap Value) (pre : GoString)
    (hproj : ∀ cfg e, proj (parseField cfg e) =
      if hasKey pre e.1 then GoMap.set (proj cfg) (e.1.drop pre.length) (.str e.2)
      else proj cfg)
    (m : GoMap GoString) (hm : GoMap.WF m) (cfg : Config) (key : GoString) :
    GoMap.get (proj (m.foldl parseField cfg)) key =
      if key = [] then GoMap.get (proj cfg) key
      else match GoMap.get m (pre ++ key) with
        | some v => some (.str v)
        | none => GoMap.get (proj cfg) key := by
  induction m generalizing cfg with
  | nil =>
    simp only [List.foldl_nil, GoMap.get]
    split_ifs <;> rfl
  | cons e m ih =>
    obtain ⟨f, v⟩ := e
    have hwf := (GoMap.WF_cons _ _).mp hm
    rw [List.foldl_cons, ih hwf.2, hproj]
    simp only [GoMap.get]
    by_cases hkey : key = []
    · simp only [hkey, if_true]
      cases hk : hasKey pre f with
      | true =>
        obtain ⟨k, hk0, hf⟩ := (hasKey_iff pre f).mp hk
        have hd : f.drop pre.length = k := by rw [hf]; simp
        simp only [if_true, GoMap.get_set, hd, hk0, if_false]
      | false => simp only [Bool.false_eq_true, if_false]
    · simp only [hkey, if_false]
      by_cases hf : f = pre ++ key
      · subst hf
        have hnone : GoMap.get m (pre ++ key) = none := by
          rw [GoMap.get_eq_none_iff]; exact hwf.1
        have hk : hasKey pre (pre ++ key) = true := (hasKey_iff pre _).mpr ⟨key, hkey, rfl⟩
        have hd : (pre ++ key).drop pre.length = key := by simp
        simp only [hnone, if_true, hk, hd, GoMap.get_set]
      · simp only [hf, if_false]
        cases hk : hasKey pre f with
        | true =>
          obtain ⟨k, hk0, hfk⟩ := (hasKey_iff pre f).mp hk
          have hd : f.drop pre.length = k := by rw [hfk]; simp
          have hne : k ≠ key := by
            rintro rfl; exact hf hfk
          simp only [if_true, hd, GoMap.get_set, hne, if_false]
        | false => simp only [Bool.false_eq_true, if_false]

theorem WF_fold_parseField (proj : Config → GoMap Value) (pre : GoString)
    (hproj : ∀ cfg e, proj (parseField cfg e) =
      if hasKey pre e.1 then GoMap.set (proj cfg) (e.1.drop pre.length) (.str e.2)
      else proj cfg)
    (m : GoMap GoString) (cfg : Config) (h : GoMap.WF (proj cfg)) :
    GoMap.WF (proj (m.foldl parseField cfg)) := by
  induction m generalizing cfg with
  | nil => exact h
  | cons e m ih =>
    rw [List.foldl_cons]
    apply ih
    rw [hproj]
    split_ifs
    · exact GoMap.WF_set _ _ _ h
    · exact h

theorem get_flattenTable (pre : GoString) (acc t : GoMap Value) (x : GoString)
    (ht : GoMap.WF t) :
    GoMap.get (flattenTable pre acc t) x =
      match (if HasPrefix x pre then GoMap.get t (x.drop pre.length) else none) with
      | some v => some (.str v.sprint)
      | none => GoMap.get acc x := by
  unfold flattenTable
  induction t generalizing acc with
  | nil =>
    simp only [List.foldl_nil, GoMap.get]
    split_ifs <;> rfl
  | cons e t ih =>
    obtain ⟨k, v⟩ := e
    have hwf := (GoMap.WF_cons _ _).mp ht
    rw [List.foldl_cons, ih _ hwf.2]
    simp only [GoMap.get, GoMap.get_set]
    cases hp : HasPrefix x pre with
    | true =>
      obtain ⟨d, hd⟩ := (hasPrefix_iff x pre).mp hp
      have hdrop : x.drop pre.length = d := by rw [hd]; simp
      simp only [if_true, hdrop]
      by_cases hk : k = d
      · have hnone : GoMap.get t d = none := by
          rw [GoMap.get_eq_none_iff, ← hk]; exact hwf.1
        simp only [hk, hnone, if_true, hd]
      · have : pre ++ k ≠ x := by
          rw [hd]; simpa using hk
        simp only [hk, if_false, this]
    | false =>
      have : pre ++ k ≠ x := by
        intro h
        have := (hasPrefix_iff x pre).mpr ⟨k, h.symm⟩
        rw [hp] at this
        exact Bool.false_ne_true this
      simp only [Bool.false_eq_true, this, if_false]

/-- One loop of `ToRedisFields` run on a table that `ParseRedisSettings` built. -/
theorem layer_parse (proj : Config → GoMap Value) (pre : GoString)
    (hproj : ∀ cfg e, proj (parseField cfg e) =
      if hasKey pre e.1 then GoMap.set (proj cfg) (e.1.drop pre.length) (.str e.2)
      else proj cfg)
    (hnil : proj { Scooter := [], Cellular := [], Updates := [], Dashboard := [] } = [])
    (m : GoMap GoString) (hm : GoMap.WF m) (x : GoString) (acc : Option Value) :
    (match (if HasPrefix x pre then GoMap.get (proj (ParseRedisSettings m)) (x.drop pre.length)
            else none) with
      | some v => some (Value.str v.sprint)
      | none => acc)
    = if hasKey pre x then
        (match GoMap.get m x with
          | some v => some (Value.str v)
          | none => acc)
      else acc := by
  unfold ParseRedisSettings
  rw [get_fold_parseField proj pre hproj m hm, hnil]
  simp only [GoMap.get]
  cases hp : HasPrefix x pre with
  | false =>
    have hk : hasKey pre x = false := by
      by_contra h
      obtain ⟨k, _, hx⟩ := (hasKey_iff pre x).mp (by simpa using h)
      have := (hasPrefix_iff x pre).mpr ⟨k, hx⟩
      rw [hp] at this
      exact Bool.false_ne_true this
    simp only [hk, Bool.false_eq_true, if_false]
  | true =>
    obtain ⟨d, hd⟩ := (hasPrefix_iff x pre).mp hp
    subst hd
    have hdrop : (pre ++ d).drop pre.length = d := by simp
    simp only [if_true, hdrop]
    by_cases hnil : d = []
    · subst hnil
      have hk : hasKey pre (pre ++ []) = false := by rw [hasKey_append]; rfl
      simp only [if_true, hk, Bool.false_eq_true, if_false]
    · have hk : hasKey pre (pre ++ d) = true := (hasKey_iff pre _).mpr ⟨d, hnil, rfl⟩
      simp only [hnil, if_false, hk, if_true]
      cases GoMap.get m (pre ++ d) <;> rfl

theorem WF_parse_Scooter (m : GoMap GoString) : GoMap.WF (ParseRedisSettings m).Scooter :=
  WF_fold_parseField Config.Scooter scooterPrefix parseField_Scooter m _ List.nodup_nil
theorem WF_parse_Cellular (m : GoMap GoString) : GoMap.WF (ParseRedisSettings m).Cellular :=
  WF_fold_parseField Config.Cellular cellularPrefix parseField_Cellular m _ List.nodup_nil
theorem WF_parse_Updates (m : GoMap GoString) : GoMap.WF (ParseRedisSettings m).Updates :=
  WF_fold_parseField Config.Updates updatesPrefix parseField_Updates m _ List.nodup_nil
theorem WF_parse_Dashboard (m : GoMap GoString) : GoMap.WF (ParseRedisSettings m).Dashboard :=
  WF_fold_parseField Config.Dashboard dashboardPrefix parseField_Dashboard m _ List.nodup_nil

/-- Flattening the partition of a well-formed mapping: the recognised fields
with their values, and nothing else. -/
theorem get_flatten_parse (m : GoMap GoString) (hm : GoMap.WF m) (x : GoString) :
    GoMap.get (ToRedisFields (ParseRedisSettings m)) x =
      if recognised x then (GoMap.get m x).map Value.str else none := by
  unfold ToRedisFields
  simp only []
  rw [get_flattenTable _ _ _ _ (WF_parse_Dashboard m),
    get_flattenTable _ _ _ _ (WF_parse_Updates m),
    get_flattenTable _ _ _ _ (WF_parse_Cellular m),
    get_flattenTable _ _ _ _ (WF_parse_Scooter m)]
  rw [layer_parse Config.Scooter scooterPrefix parseField_Scooter rfl m hm,
    layer_parse Config.Cellular cellularPrefix parseField_Cellular rfl m hm,
    layer_parse Config.Updates updatesPrefix parseField_Updates rfl m hm,
    layer_parse Config.Dashboard dashboardPrefix parseField_Dashboard rfl m hm]
  unfold recognised
  cases hasKey scooterPrefix x <;> cases hasKey cellularPrefix x <;>
    cases hasKey updatesPrefix x <;> cases hasKey dashboardPrefix x <;>
    cases GoMap.get m x <;> simp [GoMap.get]

theorem recognised_nsPrefixed (f : GoString) (h : recognised f = true) : nsPrefixed f = true := by
  unfold recognised at h
  unfold nsPrefixed
  simp only [Bool.or_eq_true] at h ⊢
  have key : ∀ pre, hasKey pre f = true → HasPrefix f pre = true := by
    intro pre hp
    obtain ⟨k, _, hk⟩ := (hasKey_iff pre f).mp hp
    exact (hasPrefix_iff f pre).mpr ⟨k, hk⟩
  rcases h with ((h | h) | h) | h
  · exact Or.inl (Or.inl (Or.inl (key _ h)))
  · exact Or.inl (Or.inl (Or.inr (key _ h)))
  · exact Or.inl (Or.inr (key _ h))
  · exact Or.inr (key _ h)

theorem parseField_unrecognised (cfg : Config) (e : GoString × GoString)
    (h : recognised e.1 = false) : parseField cfg e = cfg := by
  unfold recognised at h
  simp only [Bool.or_eq_false_iff] at h
  rw [parseField_eq]
  simp only [h.1.1.1, h.1.1.2, h.1.2, h.2, Bool.false_eq_true, if_false]

/-- The partition looks at the recognised fields only. -/
theorem fold_parseField_filter (m : GoMap GoString) (cfg : Config) :
    m.foldl parseField cfg = (m.filter (fun e => recognised e.1)).foldl parseField cfg := by
  induction m generalizing cfg with
  | nil => rfl
  | cons e m ih =>
    cases h : recognised e.1 with
    | true => simp only [List.foldl_cons, List.filter_cons, h, if_true, ih]
    | false =>
      simp only [List.foldl_cons, List.filter_cons, h, Bool.false_eq_true, if_false,
        parseField_unrecognised cfg e h, ih]

theorem get_flatten_unprefixed (c : Config) (x : GoString) (h : nsPrefixed x = false) :
    GoMap.get (ToRedisFields c) x = none := by
  unfold nsPrefixed at h
  simp only [Bool.or_eq_false_iff] at h
  obtain ⟨⟨⟨h1, h2⟩, h3⟩, h4⟩ := h
  have step : ∀ (pre : GoString) (acc t : GoMap Value), HasPrefix x pre = false →
      GoMap.get acc x = none → GoMap.get (flattenTable pre acc t) x = none := by
    intro pre acc t hp hacc
    unfold flattenTable
    induction t generalizing acc with
    | nil => exact hacc
    | cons e t ih =>
      rw [List.foldl_cons]
      apply ih
      rw [GoMap.get_set]
      have : pre ++ e.1 ≠ x := by
        intro hx
        have := (hasPrefix_iff x pre).mpr ⟨e.1, hx.symm⟩
        rw [hp] at this
        exact Bool.false_ne_true this
      simp only [this, if_false, hacc]
  unfold ToRedisFields
  exact step _ _ _ h4 (step _ _ _ h3 (step _ _ _ h2 (step _ _ _ h1 rfl)))

theorem flattenTable_forall (P : GoString × Value → Prop) (pre : GoString)
    (acc t : GoMap Value) (hacc : ∀ e ∈ acc, P e) (hP : ∀ k s, P (pre ++ k, Value.str s)) :
    ∀ e ∈ flattenTable pre acc t, P e := by
  unfold flattenTable
  induction t generalizing acc with
  | nil => exact hacc
  | cons e0 t ih =>
    rw [List.foldl_cons]
    apply ih
    intro e he
    rcases GoMap.mem_set _ _ _ _ he with h | h
    · exact hacc e h
    · rw [h]; exact hP _ _

/-- Every flattened field carries a namespace prefix and holds a string. -/
theorem flatten_entries (c : Config) :
    ∀ e ∈ ToRedisFields c, nsPrefixed e.1 = true ∧ ∃ s, e.2 = Value.str s := by
  have hp : ∀ pre k, HasPrefix (pre ++ k) pre = true :=
    fun pre k => (hasPrefix_iff _ _).mpr ⟨k, rfl⟩
  unfold ToRedisFields
  apply flattenTable_forall
  · apply flattenTable_forall
    · apply flattenTable_forall
      · apply flattenTable_forall
        · intro e he; cases he
        · intro k s; exact ⟨by simp [nsPrefixed, hp], s, rfl⟩
      · intro k s; exact ⟨by simp [nsPrefixed, hp], s, rfl⟩
    · intro k s; exact ⟨by simp [nsPrefixed, hp], s, rfl⟩
  · intro k s; exact ⟨by simp [nsPrefixed, hp], s, rfl⟩

theorem WF_flattenTable (pre : GoString) (acc t : GoMap Value) (h : GoMap.WF acc) :
    GoMap.WF (flattenTable pre acc t) := by
  unfold flattenTable
  induction t generalizing acc with
  | nil => exact h
  | cons e0 t ih =>
    rw [List.foldl_cons]
    exact ih _ (GoMap.WF_set _ _ _ h)

theorem WF_flatten (c : Config) : GoMap.WF (ToRedisFields c) := by
  unfold ToRedisFields
  exact WF_flattenTable _ _ _ (WF_flattenTable _ _ _ (WF_flattenTable _ _ _
    (WF_flattenTable _ _ _ List.nodup_nil)))

/-! ## Lemmas on the service -/

theorem fold_setting (l : GoMap GoString) (w : World) :
    l.foldl (fun w kv => w.logLine (.setting kv.1 kv.2)) w =
      { w with log := w.log ++ List.map (fun kv => LogEvent.setting kv.1 kv.2) l } := by
  induction l generalizing w with
  | nil => simp
  | cons e l ih =>
    rw [List.foldl_cons, ih]
    simp [World.logLine]

theorem fold_ignoring (l : GoMap GoString) (w : World) :
    l.foldl (fun w kv =>
      if !HasPrefix kv.1 scooterPrefix && !HasPrefix kv.1 cellularPrefix then
        w.logLine (.ignoringField kv.1)
      else w) w =
      { w with
        log := w.log ++ List.map (fun kv => LogEvent.ignoringField kv.1)
                (List.filter
                  (fun kv => !HasPrefix kv.1 scooterPrefix && !HasPrefix kv.1 cellularPrefix) l) } := by
  induction l generalizing w with
  | nil => simp
  | cons e l ih =>
    rw [List.foldl_cons, ih]
    cases h : (!HasPrefix e.1 scooterPrefix && !HasPrefix e.1 cellularPrefix) with
    | true => simp [List.filter_cons, h, World.logLine]
    | false => simp [List.filter_cons, h]

theorem save_eq (w : World) :
    SaveSettingsToTOML w =
      if w.getFails then (.error .getSettings, w)
      else if w.saveFails then
        (.error .saveToml, { w with log := w.log ++ passLog w.store })
      else
        (.ok (), { w with toml := .present (ParseRedisSettings w.store),
                          log := w.log ++ passLog w.store ++ [.saved w.store.length] }) := by
  unfold SaveSettingsToTOML GetAllSettings SaveToFile
  cases hg : w.getFails with
  | true => simp
  | false =>
    simp only [Bool.false_eq_true, if_false, fold_setting, fold_ignoring]
    cases hs : w.saveFails with
    | true => simp [passLog, World.logLine, hs, hg]
    | false => simp [passLog, World.logLine, hs, hg]

theorem mem_passLog_ignoring (store : GoMap GoString) (f : GoString) :
    LogEvent.ignoringField f ∈ passLog store ↔
      f ∈ GoMap.keys store ∧ HasPrefix f scooterPrefix = false ∧
        HasPrefix f cellularPrefix = false := by
  unfold passLog GoMap.keys
  simp only [List.mem_append, List.mem_singleton, List.mem_map, List.mem_filter, reduceCtorEq,
    false_or, Bool.and_eq_true, Bool.not_eq_true', LogEvent.ignoringField.injEq, and_false,
    exists_false, Prod.exists]
  constructor
  · rintro ⟨a, b, ⟨hm, h1, h2⟩, rfl⟩
    exact ⟨⟨a, b, hm, rfl⟩, h1, h2⟩
  · rintro ⟨⟨a, b, hm, rfl⟩, h1, h2⟩
    exact ⟨a, b, ⟨hm, h1, h2⟩, rfl⟩

theorem get_fold_wire (fields : GoMap Value) (acc : GoMap GoString) (x : GoString)
    (hf : GoMap.WF fields) :
    GoMap.get (fields.foldl (fun st fv => GoMap.set st fv.1 fv.2.wire) acc) x =
      match GoMap.get fields x with
      | some v => some v.wire
      | none => GoMap.get acc x := by
  induction fields generalizing acc with
  | nil => rfl
  | cons e t ih =>
    obtain ⟨k, v⟩ := e
    have hwf := (GoMap.WF_cons _ _).mp hf
    rw [List.foldl_cons, ih _ hwf.2]
    simp only [GoMap.get, GoMap.get_set]
    by_cases hk : k = x
    · subst hk
      have hnone : GoMap.get t k = none := by
        rw [GoMap.get_eq_none_iff]; exact hwf.1
      simp only [hnone, if_true]
    · simp only [hk, if_false]

theorem updateAPN_calls (apn : GoString) (env : NetEnv) :
    (UpdateAPN apn env).2.updateCalls = env.updateCalls ++ [apn] := by
  unfold UpdateAPN
  cases env.profile with
  | absent => rfl
  | unreadable => rfl
  | present content =>
    simp only []
    split_ifs <;> rfl

theorem sync_store (cfg : Config) (w : World) : (syncAPNOnStartup cfg w).store = w.store := by
  unfold syncAPNOnStartup
  cases GoMap.get cfg.Cellular "apn".toList with
  | none => rfl
  | some apn =>
    simp only []
    split_ifs with h1
    · cases GetCurrentAPN w.net with
      | error e => rfl
      | ok cur =>
        simp only []
        split_ifs with h2
        · cases (UpdateAPN apn.sprint (w.logLine (.apnMismatch cur apn)).net).1 <;> rfl
        · rfl
    · rfl

/-- The calls of `UpdateAPN` the startup block makes. -/
theorem sync_calls (cfg : Config) (w : World) :
    (syncAPNOnStartup cfg w).net.updateCalls = w.net.updateCalls ++
      (match GoMap.get cfg.Cellular "apn".toList with
        | none => []
        | some apn =>
          if apn ≠ Value.str [] then
            match GetCurrentAPN w.net with
            | .error _ => []
            | .ok cur => if cur ≠ apn.sprint then [apn.sprint] else []
          else []) := by
  unfold syncAPNOnStartup
  cases GoMap.get cfg.Cellular "apn".toList with
  | none => simp
  | some apn =>
    simp only []
    split_ifs with h1
    · cases GetCurrentAPN w.net with
      | error e => simp [World.logLine]
      | ok cur =>
        simp only []
        split_ifs with h2
        · have := updateAPN_calls apn.sprint w.net
          cases h : (UpdateAPN apn.sprint (w.logLine (.apnMismatch cur apn)).net).1 <;>
            simpa [World.logLine] using this
        · simp [World.logLine]
    · simp

/-- `LoadSettingsFromTOML`, branch by branch. -/
theorem load_eq (w : World) :
    LoadSettingsFromTOML w =
      if w.flushFails then (.error .flush, w.logLine .flushing)
      else match w.toml with
        | .absent =>
          (.ok (), { w with store := [], log := w.log ++ [.flushing, .tomlMissing] })
        | .unreadable =>
          (.error .readToml, { w with store := [], log := w.log ++ [.flushing] })
        | .present cfg =>
          if decide ((ToRedisFields cfg).length > 0) && w.setFails then
            (.error .writeSettings,
              { w with
                store := [],
                log := w.log ++ [.flushing] ++
                  (if cfg.Scooter.length == 0 then [.emptyScooter] else []) })
          else
            (.ok (), syncAPNOnStartup cfg
              { w with
                store := (ToRedisFields cfg).foldl (fun st fv => GoMap.set st fv.1 fv.2.wire) [],
                log := w.log ++ [.flushing] ++
                  (if cfg.Scooter.length == 0 then [.emptyScooter] else []) ++
                  [.loaded (ToRedisFields cfg).length] }) := by
  unfold LoadSettingsFromTOML FlushSettings LoadFromFile
  cases hf : w.flushFails with
  | true => simp [World.logLine, hf]
  | false =>
    cases ht : w.toml with
    | absent => simp [World.logLine, hf, ht, Err.isNotExist]
    | unreadable => simp [World.logLine, hf, ht, Err.isNotExist]
    | present cfg =>
      simp only [World.logLine, hf, ht, Bool.false_eq_true, if_false]
      cases hfields : ToRedisFields cfg with
      | nil =>
        cases hsc : (cfg.Scooter.length == 0) <;> simp [hsc]
      | cons e t =>
        cases hs : w.setFails <;> cases hsc : (cfg.Scooter.length == 0) <;>
          simp [SetSettings, hs, hsc, hf]

theorem logged_append (w w' : World) (es : List LogEvent) (h : w'.log = w.log ++ es) :
    logged w w' = es := by
  unfold logged
  rw [h, List.drop_left]


/-- The store after a successful write of the flattened fields holds each
field as the string it was flattened to. -/
theorem get_store_of_fields (cfg : Config) (x : GoString) :
    (GoMap.get ((ToRedisFields cfg).foldl (fun st fv => GoMap.set st fv.1 fv.2.wire) []) x).map
        Value.str = GoMap.get (ToRedisFields cfg) x := by
  rw [get_fold_wire _ _ _ (WF_flatten cfg)]
  cases h : GoMap.get (ToRedisFields cfg) x with
  | none => rfl
  | some v =>
    obtain ⟨_, s, hs⟩ := flatten_entries cfg _ (GoMap.mem_of_get _ _ _ h)
    simp only [] at hs
    subst hs
    rfl

theorem load_store_prefixed (w : World) :
    (LoadSettingsFromTOML w).2.store = w.store ∨
      ∀ f ∈ GoMap.keys (LoadSettingsFromTOML w).2.store, nsPrefixed f = true := by
  rw [load_eq]
  cases hf : w.flushFails with
  | true => left; rfl
  | false =>
    right
    simp only [Bool.false_eq_true, if_false]
    cases ht : w.toml with
    | absent => intro f hf; cases hf
    | unreadable => intro f hf; cases hf
    | present cfg =>
      simp only []
      by_cases hc : (decide ((ToRedisFields cfg).length > 0) && w.setFails) = true
      · rw [if_pos hc]
        intro f hf; cases hf
      · rw [if_neg hc]
        intro f hf
        rw [sync_store] at hf
        simp only [] at hf
        have hne : GoMap.get ((ToRedisFields cfg).foldl
            (fun st fv => GoMap.set st fv.1 fv.2.wire) []) f ≠ none := by
          intro h
          exact ((GoMap.get_eq_none_iff _ _).mp h) hf
        have h2 := get_store_of_fields cfg f
        cases hg : GoMap.get (ToRedisFields cfg) f with
        | none =>
          rw [hg, Option.map_eq_none'] at h2
          exact absurd h2 hne
        | some v => exact (flatten_entries cfg _ (GoMap.mem_of_get _ _ _ hg)).1

theorem save_frame (w : World) :
    (SaveSettingsToTOML w).2.store = w.store ∧
    (SaveSettingsToTOML w).2.getFails = w.getFails ∧
    (SaveSettingsToTOML w).2.net = w.net := by
  rw [save_eq]
  split_ifs <;> exact ⟨rfl, rfl, rfl⟩

/-- The calls of `UpdateAPN` that `updateAPNFromRedis` makes. -/
theorem updateFromRedis_calls (w : World) :
    (updateAPNFromRedis w).net.updateCalls = w.net.updateCalls ++
      (if w.getFails then []
       else match GoMap.get w.store cellularApnField with
        | none => []
        | some apn => if apn ≠ [] then [apn] else []) := by
  unfold updateAPNFromRedis GetAllSettings
  cases hg : w.getFails with
  | true => simp [World.logLine]
  | false =>
    simp only [Bool.false_eq_true, if_false]
    cases GoMap.get w.store cellularApnField with
    | none => simp
    | some apn =>
      simp only []
      split_ifs with h
      · have := updateAPN_calls apn w.net
        cases hr : (UpdateAPN apn w.net).1 <;> simpa [World.logLine] using this
      · simp

/-- The calls of `UpdateAPN` that handling one message makes. -/
theorem handle_calls (msg : Message) (w : World) :
    (handleMessage msg w).net.updateCalls = w.net.updateCalls ++
      (if msg.Channel = SettingsChannel ∧ msg.Payload = cellularApnField ∧ w.getFails = false then
        match GoMap.get w.store cellularApnField with
        | none => []
        | some apn => if apn ≠ [] then [apn] else []
       else []) := by
  unfold handleMessage
  by_cases hc : msg.Channel = SettingsChannel
  · simp only [hc, if_true, true_and]
    obtain ⟨h1, h2, h3⟩ := save_frame (w.logLine (.received msg.Payload))
    have hframe : ∀ w2 : World,
        w2 = (match (SaveSettingsToTOML (w.logLine (.received msg.Payload))).1 with
          | .error e => (SaveSettingsToTOML (w.logLine (.received msg.Payload))).2.logLine
              (.saveError e)
          | .ok _ => (SaveSettingsToTOML (w.logLine (.received msg.Payload))).2) →
        w2.store = w.store ∧ w2.getFails = w.getFails ∧ w2.net = w.net := by
      intro w2 hw2
      subst hw2
      cases (SaveSettingsToTOML (w.logLine (.received msg.Payload))).1 with
      | error e => exact ⟨h1, h2, h3⟩
      | ok u => exact ⟨h1, h2, h3⟩
    obtain ⟨g1, g2, g3⟩ := hframe _ rfl
    by_cases hp : msg.Payload = cellularApnField
    · simp only [hp, if_true, true_and]
      rw [updateFromRedis_calls]
      simp only [hp] at g1 g2 g3
      rw [g1, g2, g3]
      cases w.getFails <;> simp
    · simp only [hp, if_false, false_and, List.append_nil]
      rw [g3]
  · simp [hc]

/-! ## Lemmas on lines -/

theorem split_ne_nil (s : GoString) (sep : Char) : Split s sep ≠ [] := by
  induction s with
  | nil => simp [Split]
  | cons c cs ih =>
    unfold Split
    split_ifs
    · simp
    · cases h : Split cs sep with
      | nil => exact absurd h ih
      | cons l ls => simp

theorem split_no_sep (s : GoString) (sep : Char) : ∀ l ∈ Split s sep, sep ∉ l := by
  induction s with
  | nil => simp [Split]
  | cons c cs ih =>
    unfold Split
    split_ifs with hc
    · intro l hl
      rcases List.mem_cons.mp hl with h | h
      · subst h; simp
      · exact ih l h
    · cases h : Split cs sep with
      | nil => exact absurd h (split_ne_nil cs sep)
      | cons l0 ls =>
        rw [h] at ih
        intro l hl
        simp only [List.mem_cons] at hl
        rcases hl with h | h
        · subst h
          intro hmem
          rcases List.mem_cons.mp hmem with h1 | h1
          · exact hc h1.symm
          · exact ih l0 (List.mem_cons_self _ _) h1
        · exact ih l (List.mem_cons_of_mem _ h)

theorem split_cons (c : Char) (cs : GoString) (sep : Char) :
    Split (c :: cs) sep =
      if c = sep then [] :: Split cs sep
      else match Split cs sep with
        | [] => [[c]]
        | l :: ls => (c :: l) :: ls := rfl

theorem split_line (l : GoString) (sep : Char) (h : sep ∉ l) : Split l sep = [l] := by
  induction l with
  | nil => rfl
  | cons c cs ih =>
    have hc : c ≠ sep := fun e => h (e ▸ List.mem_cons_self _ _)
    have hcs : sep ∉ cs := fun e => h (List.mem_cons_of_mem _ e)
    unfold Split
    rw [if_neg hc, ih hcs]

theorem split_line_append (l r : GoString) (sep : Char) (h : sep ∉ l) :
    Split (l ++ sep :: r) sep = l :: Split r sep := by
  induction l with
  | nil => simp [Split]
  | cons c cs ih =>
    have hc : c ≠ sep := fun e => h (e ▸ List.mem_cons_self _ _)
    have hcs : sep ∉ cs := fun e => h (List.mem_cons_of_mem _ e)
    rw [List.cons_append, split_cons, if_neg hc, ih hcs]

/-- Splitting what `Join` made of separator-free lines gives the lines back. -/
theorem split_join (ls : List GoString) (sep : Char) (hne : ls ≠ [])
    (h : ∀ l ∈ ls, sep ∉ l) : Split (Join ls sep) sep = ls := by
  induction ls with
  | nil => exact absurd rfl hne
  | cons l t ih =>
    cases t with
    | nil =>
      simp only [Join]
      exact split_line l sep (h l (List.mem_cons_self _ _))
    | cons l2 t2 =>
      simp only [Join]
      rw [split_line_append l _ sep (h l (List.mem_cons_self _ _)),
        ih (by simp) (fun x hx => h x (List.mem_cons_of_mem _ hx))]

theorem dropWhile_head (p : Char → Bool) (s : GoString)
    (h : ∀ c, s.head? = some c → p c = false) : s.dropWhile p = s := by
  cases s with
  | nil => rfl
  | cons c cs =>
    have := h c rfl
    simp [List.dropWhile, this]

/-- A string that neither starts nor ends with white space is its own trim. -/
theorem trimSpace_id (s : GoString) (h1 : ∀ c, s.head? = some c → isSpace c = false)
    (h2 : ∀ c, s.getLast? = some c → isSpace c = false) : TrimSpace s = s := by
  unfold TrimSpace
  rw [dropWhile_head _ s h1, dropWhile_head _ s.reverse, List.reverse_reverse]
  intro c hc
  rw [List.head?_reverse] at hc
  exact h2 c hc

theorem apnKey_eq : apnKey = ['a', 'p', 'n', '='] := rfl
theorem gsmHeader_eq : gsmHeader = ['[', 'g', 's', 'm', ']'] := rfl
theorem sectionOpen_eq : sectionOpen = ['['] := rfl

/-- The line `UpdateAPN` writes is its own trim when the value does not end
with white space. -/
theorem trimSpace_apnLine (apn : GoString) (h : ∀ c, apn.getLast? = some c → isSpace c = false) :
    TrimSpace (apnKey ++ apn) = apnKey ++ apn := by
  apply trimSpace_id
  · intro c hc
    simp only [apnKey_eq, List.cons_append, List.head?_cons, Option.some.injEq] at hc
    subst hc
    decide
  · intro c hc
    cases apn with
    | nil =>
      simp only [apnKey_eq, List.append_nil] at hc
      have : c = '=' := by
        simp [List.getLast?] at hc
        exact hc.symm
      subst this
      decide
    | cons a as =>
      rw [List.getLast?_append_of_ne_nil _ (by simp)] at hc
      exact h c hc

theorem apnLine_facts (apn : GoString) :
    apnKey ++ apn ≠ gsmHeader ∧ HasPrefix (apnKey ++ apn) sectionOpen = false ∧
      HasPrefix (apnKey ++ apn) apnKey = true ∧ TrimPrefix (apnKey ++ apn) apnKey = apn := by
  refine ⟨?_, ?_, ?_, ?_⟩
  · simp [apnKey_eq, gsmHeader_eq]
  · simp [HasPrefix, apnKey_eq, sectionOpen_eq, List.isPrefixOf]
  · exact (hasPrefix_iff _ _).mpr ⟨apn, rfl⟩
  · unfold TrimPrefix
    rw [if_pos ((hasPrefix_iff _ _).mpr ⟨apn, rfl⟩)]
    simp

/-- A line that starts with `apn=` is no section header. -/
theorem apnPrefix_facts (t : GoString) (h : HasPrefix t apnKey = true) :
    t ≠ gsmHeader ∧ HasPrefix t sectionOpen = false := by
  obtain ⟨r, hr⟩ := (hasPrefix_iff _ _).mp h
  subst hr
  exact ⟨(apnLine_facts r).1, (apnLine_facts r).2.1⟩

/-! ## Lemmas on the scans of the profile file -/

theorem reaches_zero (b : Bool) (lines : List GoString) : reaches b lines 0 ↔ b = true := by
  unfold reaches gsmSectionReaches
  simp

theorem reaches_false (lines : List GoString) (i : Nat) :
    reaches false lines i ↔ gsmSectionReaches lines i := by
  unfold reaches
  simp

theorem nextInGsm_true (b : Bool) (l : GoString) :
    nextInGsm b l = true ↔
      TrimSpace l = gsmHeader ∨ (b = true ∧ HasPrefix (TrimSpace l) sectionOpen = false) := by
  unfold nextInGsm
  by_cases hg : TrimSpace l = gsmHeader
  · simp [hg]
  · cases b <;> cases HasPrefix (TrimSpace l) sectionOpen <;> simp [hg]

theorem reaches_succ (b : Bool) (l : GoString) (rest : List GoString) (i : Nat) :
    reaches b (l :: rest) (i + 1) ↔ reaches (nextInGsm b l) rest i := by
  unfold reaches gsmSectionReaches
  rw [nextInGsm_true]
  simp only [List.take_succ_cons, List.mem_cons, forall_eq_or_imp]
  constructor
  · rintro (⟨hb, hl, hrest⟩ | ⟨j, hj, hg, hall⟩)
    · exact Or.inl ⟨Or.inr ⟨hb, hl⟩, hrest⟩
    · cases j with
      | zero =>
        simp only [List.getD_cons_zero, zero_add, List.drop_succ_cons, List.drop_zero] at hg hall
        exact Or.inl ⟨Or.inl hg, hall⟩
      | succ j =>
        simp only [List.getD_cons_succ, List.drop_succ_cons] at hg hall
        exact Or.inr ⟨j, by omega, hg, hall⟩
  · rintro (⟨hg | ⟨hb, hl⟩, hrest⟩ | ⟨j, hj, hg, hall⟩)
    · refine Or.inr ⟨0, by omega, ?_, ?_⟩
      · simpa using hg
      · simpa using hrest
    · exact Or.inl ⟨hb, hl, hrest⟩
    · refine Or.inr ⟨j + 1, by omega, ?_, ?_⟩
      · simpa using hg
      · simpa using hall

/-- One step of the loop of `UpdateAPN`. -/
theorem updateScan_cons (apn l : GoString) (rest : List GoString) (b u : Bool) :
    updateScan apn (l :: rest) b u =
      ((if b && HasPrefix (TrimSpace l) apnKey then apnKey ++ apn else l) ::
          (updateScan apn rest (nextInGsm b l) (u || (b && HasPrefix (TrimSpace l) apnKey))).1,
        (updateScan apn rest (nextInGsm b l) (u || (b && HasPrefix (TrimSpace l) apnKey))).2) := by
  rw [updateScan]
  simp only []
  by_cases hg : TrimSpace l = gsmHeader
  · have hnot : HasPrefix gsmHeader apnKey = false := rfl
    simp [hg, nextInGsm, hnot]
  · cases hb : b with
    | false => simp [hg, nextInGsm]
    | true =>
      cases hp : HasPrefix (TrimSpace l) sectionOpen with
      | true =>
        have hnot : HasPrefix (TrimSpace l) apnKey = false := by
          cases h : HasPrefix (TrimSpace l) apnKey with
          | false => rfl
          | true =>
            have := (apnPrefix_facts _ h).2
            rw [hp] at this
            exact Bool.noConfusion this
        simp [hg, nextInGsm, hp, hnot]
      | false =>
        cases ha : HasPrefix (TrimSpace l) apnKey <;> simp [hg, nextInGsm, hp, ha]

theorem updateScan_length (apn : GoString) (lines : List GoString) (b u : Bool) :
    (updateScan apn lines b u).1.length = lines.length := by
  induction lines generalizing b u with
  | nil => rfl
  | cons l rest ih => rw [updateScan_cons]; simp [ih]

theorem updateScan_mem (apn : GoString) (lines : List GoString) (b u : Bool) :
    ∀ x ∈ (updateScan apn lines b u).1, x ∈ lines ∨ x = apnKey ++ apn := by
  induction lines generalizing b u with
  | nil => intro x hx; simp [updateScan] at hx
  | cons l rest ih =>
    rw [updateScan_cons]
    intro x hx
    simp only [List.mem_cons] at hx
    rcases hx with hx | hx
    · split_ifs at hx
      · exact Or.inr hx
      · exact Or.inl (hx ▸ List.mem_cons_self _ _)
    · rcases ih _ _ x hx with h | h
      · exact Or.inl (List.mem_cons_of_mem _ h)
      · exact Or.inr h

/-- What the loop of `UpdateAPN` leaves at position `i`. -/
theorem updateScan_getD (apn : GoString) (lines : List GoString) (b u : Bool) (i : Nat)
    (hi : i < lines.length) :
    (reaches b lines i ∧ HasPrefix (TrimSpace (lines.getD i [])) apnKey = true →
      (updateScan apn lines b u).1.getD i [] = apnKey ++ apn) ∧
    (¬ (reaches b lines i ∧ HasPrefix (TrimSpace (lines.getD i [])) apnKey = true) →
      (updateScan apn lines b u).1.getD i [] = lines.getD i []) := by
  induction lines generalizing b u i with
  | nil => simp at hi
  | cons l rest ih =>
    rw [updateScan_cons]
    cases i with
    | zero =>
      simp only [List.getD_cons_zero, reaches_zero]
      constructor
      · rintro ⟨hb, hp⟩
        simp [hb, hp]
      · intro hn
        have : (b && HasPrefix (TrimSpace l) apnKey) = false := by
          cases b <;> cases hp : HasPrefix (TrimSpace l) apnKey <;> simp_all
        simp [this]
    | succ i =>
      simp only [List.getD_cons_succ, reaches_succ]
      exact ih _ _ i (by simpa using hi)

/-- The loop of `UpdateAPN` sets `updated` exactly when it meets an `apn=` line
while `inGsmSection` is set. -/
theorem updateScan_updated (apn : GoString) (lines : List GoString) (b u : Bool) :
    (updateScan apn lines b u).2 = true ↔
      u = true ∨ ∃ i, i < lines.length ∧ reaches b lines i ∧
        HasPrefix (TrimSpace (lines.getD i [])) apnKey = true := by
  induction lines generalizing b u with
  | nil => simp [updateScan]
  | cons l rest ih =>
    rw [updateScan_cons]
    simp only []
    rw [ih]
    constructor
    · rintro (h | ⟨i, hi, hr, hp⟩)
      · simp only [Bool.or_eq_true, Bool.and_eq_true] at h
        rcases h with h | ⟨hb, hp⟩
        · exact Or.inl h
        · exact Or.inr ⟨0, by simp, (reaches_zero _ _).mpr hb, by simpa using hp⟩
      · exact Or.inr ⟨i + 1, by simpa using hi, (reaches_succ _ _ _ _).mpr hr, by simpa using hp⟩
    · rintro (h | ⟨i, hi, hr, hp⟩)
      · exact Or.inl (by simp [h])
      · cases i with
        | zero =>
          have hb := (reaches_zero _ _).mp hr
          simp only [List.getD_cons_zero] at hp
          exact Or.inl (by simp [hb, hp])
        | succ i =>
          exact Or.inr ⟨i, by simpa using hi, (reaches_succ _ _ _ _).mp hr, by simpa using hp⟩

theorem updateAPN_not_updated (apn : GoString) (env : NetEnv) (content : GoString)
    (hfile : env.profile = .present content)
    (hu : (updateScan apn (Split content '\n') false false).2 = false) :
    (UpdateAPN apn env).1 = .ok () ∧ (UpdateAPN apn env).2.profile = .present content ∧
      (UpdateAPN apn env).2.restarts = env.restarts := by
  unfold UpdateAPN
  simp only [hfile, hu, Bool.not_false, if_true]
  exact ⟨trivial, trivial, trivial⟩

theorem updateAPN_written (apn : GoString) (env : NetEnv) (content : GoString)
    (hfile : env.profile = .present content) (hwrite : env.writeFails = false)
    (hu : (updateScan apn (Split content '\n') false false).2 = true) :
    (UpdateAPN apn env).2.profile =
      .present (Join (updateScan apn (Split content '\n') false false).1 '\n') := by
  unfold UpdateAPN
  simp only [hfile, hu, hwrite, Bool.not_true, Bool.false_eq_true, if_false]
  split_ifs <;> rfl

/-- The lines `UpdateAPN` joins come back when the new content is split, for a
value without a newline. -/
theorem split_join_updateScan (apn content : GoString) (hnl : '\n' ∉ apn) (b u : Bool) :
    Split (Join (updateScan apn (Split content '\n') b u).1 '\n') '\n' =
      (updateScan apn (Split content '\n') b u).1 := by
  apply split_join
  · intro h
    have := updateScan_length apn (Split content '\n') b u
    rw [h] at this
    exact split_ne_nil content '\n' (List.length_eq_zero.mp this.symm)
  · intro l hl
    rcases updateScan_mem apn _ b u l hl with h | h
    · exact split_no_sep content '\n' l h
    · subst h
      intro hmem
      rcases List.mem_append.mp hmem with h1 | h1
      · revert h1; decide
      · exact hnl h1

theorem getScan_cons (l : GoString) (rest : List GoString) (b : Bool) :
    getScan (l :: rest) b =
      if TrimSpace l = gsmHeader then getScan rest true
      else if b && HasPrefix (TrimSpace l) sectionOpen then none
      else if b && HasPrefix (TrimSpace l) apnKey then some (TrimPrefix (TrimSpace l) apnKey)
      else getScan rest b := rfl

/-- When the loop of `GetCurrentAPN` finds an `apn=` line, the loop of
`UpdateAPN` replaces a line, and `GetCurrentAPN` finds the new value in the
replaced lines. -/
theorem getScan_after_update (apn : GoString)
    (hsp : ∀ c, apn.getLast? = some c → isSpace c = false)
    (lines : List GoString) (b u : Bool) (v : GoString) (h : getScan lines b = some v) :
    (updateScan apn lines b u).2 = true ∧
      getScan (updateScan apn lines b u).1 b = some apn := by
  induction lines generalizing b u with
  | nil => simp [getScan] at h
  | cons l rest ih =>
    rw [getScan_cons] at h
    rw [updateScan_cons]
    simp only []
    by_cases hg : TrimSpace l = gsmHeader
    · rw [if_pos hg] at h
      have hnot : HasPrefix (TrimSpace l) apnKey = false := by rw [hg]; rfl
      have hnext : nextInGsm b l = true := by simp [nextInGsm, hg]
      obtain ⟨h1, h2⟩ := ih true (u || (b && HasPrefix (TrimSpace l) apnKey)) h
      rw [hnext]
      refine ⟨h1, ?_⟩
      simp only [hnot, Bool.and_false, Bool.false_eq_true, if_false]
      rw [getScan_cons, if_pos hg]
      simpa [hnot] using h2
    · rw [if_neg hg] at h
      by_cases hp : (b && HasPrefix (TrimSpace l) sectionOpen) = true
      · rw [if_pos hp] at h; cases h
      · rw [if_neg hp] at h
        have hnext : nextInGsm b l = b := by
          unfold nextInGsm
          rw [if_neg hg, if_neg hp]
        rw [hnext]
        by_cases ha : (b && HasPrefix (TrimSpace l) apnKey) = true
        · obtain ⟨f1, f2, f3, f4⟩ := apnLine_facts apn
          have hb : b = true := by
            simp only [Bool.and_eq_true] at ha; exact ha.1
          refine ⟨?_, ?_⟩
          · exact (updateScan_updated _ _ _ _).mpr (Or.inl (by simp [ha]))
          · rw [if_pos ha, getScan_cons, trimSpace_apnLine apn hsp, if_neg f1, f2, f3, f4]
            simp [hb]
        · rw [if_neg ha] at h
          obtain ⟨h1, h2⟩ := ih b (u || (b && HasPrefix (TrimSpace l) apnKey)) h
          refine ⟨h1, ?_⟩
          rw [if_neg ha, getScan_cons, if_neg hg, if_neg hp, if_neg ha]
          exact h2

theorem getD_mem (lines : List GoString) (j : Nat) (h : j < lines.length) :
    lines.getD j [] ∈ lines := by
  induction lines generalizing j with
  | nil => simp at h
  | cons l rest ih =>
    cases j with
    | zero => simp
    | succ j =>
      simp only [List.getD_cons_succ]
      exact List.mem_cons_of_mem _ (ih j (by simpa using h))

/-- The loop of `UpdateAPN`, run from the start of the file, sets `updated`
exactly when the file has an `apn=` line inside a `[gsm]` section. -/
theorem updated_iff_apnLine (apn : GoString) (lines : List GoString) :
    (updateScan apn lines false false).2 = true ↔ ∃ i, isApnLineInGsm lines i := by
  rw [updateScan_updated]
  simp only [Bool.false_eq_true, false_or, reaches_false]
  unfold isApnLineInGsm
  constructor
  · rintro ⟨i, hi, hr, hp⟩; exact ⟨i, hi, hp, hr⟩
  · rintro ⟨i, hi, hp, hr⟩; exact ⟨i, hi, hr, hp⟩

/-! ## Round trip of partition and flattening -/

/-- C1, as stated, fails: the mapping that holds the single field `scooter.`
(a namespace prefix with nothing after it) has no duplicate, every field name
in it begins with a namespace prefix, and yet flattening its partition loses
the field. -/
theorem roundtrip_bare_prefix_lost :
    GoMap.WF [("scooter.".toList, "x".toList)] ∧
    (∀ f ∈ GoMap.keys [("scooter.".toList, "x".toList)], nsPrefixed f = true) ∧
    GoMap.get [("scooter.".toList, "x".toList)] "scooter.".toList = some "x".toList ∧
    GoMap.get (ToRedisFields (ParseRedisSettings [("scooter.".toList, "x".toList)]))
      "scooter.".toList = none := by
  refine ⟨?_, ?_, ?_, ?_⟩
  · unfold GoMap.WF; decide
  · decide
  · decide
  · decide

/-- C1, amended: for every flat mapping in which each field name is one of the
four namespace prefixes followed by at least one more character, flattening the
partition of the mapping yields the same field names, each with the same string
value. -/
theorem roundtrip_flatten_partition (m : GoMap GoString) (hm : GoMap.WF m)
    (h : ∀ f ∈ GoMap.keys m, recognised f = true) :
    (∀ x, x ∈ GoMap.keys (ToRedisFields (ParseRedisSettings m)) ↔ x ∈ GoMap.keys m) ∧
    (∀ x, GoMap.get (ToRedisFields (ParseRedisSettings m)) x =
      (GoMap.get m x).map Value.str) := by
  have hget : ∀ x, GoMap.get (ToRedisFields (ParseRedisSettings m)) x =
      (GoMap.get m x).map Value.str := by
    intro x
    rw [get_flatten_parse m hm x]
    cases hx : recognised x with
    | true => simp
    | false =>
      have : x ∉ GoMap.keys m := by
        intro hmem
        rw [h x hmem] at hx
        exact Bool.noConfusion hx
      rw [(GoMap.get_eq_none_iff m x).mpr this]
      simp
  refine ⟨?_, hget⟩
  intro x
  have h1 := GoMap.get_eq_none_iff (ToRedisFields (ParseRedisSettings m)) x
  have h2 := GoMap.get_eq_none_iff m x
  rw [hget x] at h1
  constructor
  · intro hx
    by_contra hc
    exact (h1.mp (by rw [h2.mpr hc]; rfl)) hx
  · intro hx
    by_contra hc
    have := h1.mpr hc
    rw [Option.map_eq_none'] at this
    exact (h2.mp this) hx

theorem roundtrip_flatten_partition_witness :
    GoMap.get (ToRedisFields (ParseRedisSettings
        [("scooter.color".toList, "red".toList), ("cellular.apn".toList, "internet".toList)]))
      "cellular.apn".toList = some (Value.str "internet".toList) :=
  (roundtrip_flatten_partition
    [("scooter.color".toList, "red".toList), ("cellular.apn".toList, "internet".toList)]
    (by unfold GoMap.WF; decide) (by decide)).2 "cellular.apn".toList

/-! ## The re-sync pass -/

/-- C5: a re-sync pass leaves the live store as it was, the document it writes
is the partition of the store, and a store field whose name begins with none of
the four namespace prefixes is no field of that document, which is built from
the recognised fields alone. -/
theorem resync_keeps_store_excludes_unprefixed (w : World) :
    (SaveSettingsToTOML w).2.store = w.store ∧
    ((SaveSettingsToTOML w).1 = .ok () →
      (SaveSettingsToTOML w).2.toml = .present (ParseRedisSettings w.store)) ∧
    (∀ f, f ∈ GoMap.keys w.store → nsPrefixed f = false →
      GoMap.get (ToRedisFields (ParseRedisSettings w.store)) f = none) ∧
    ParseRedisSettings w.store =
      ParseRedisSettings (w.store.filter (fun e => nsPrefixed e.1)) := by
  refine ⟨?_, ?_, ?_, ?_⟩
  · rw [save_eq]
    split_ifs <;> rfl
  · rw [save_eq]
    split_ifs
    · intro h; cases h
    · intro h; cases h
    · intro _; rfl
  · intro f _ hf
    exact get_flatten_unprefixed _ f hf
  · unfold ParseRedisSettings
    have e1 := fold_parseField_filter w.store
      { Scooter := [], Cellular := [], Updates := [], Dashboard := [] }
    have e2 := fold_parseField_filter (w.store.filter (fun e => nsPrefixed e.1))
      { Scooter := [], Cellular := [], Updates := [], Dashboard := [] }
    rw [List.filter_filter] at e2
    rw [e1, e2]
    congr 1
    apply List.filter_congr
    intro e _
    cases hr : recognised e.1 with
    | true => simp [recognised_nsPrefixed e.1 hr]
    | false => simp

theorem resync_keeps_store_excludes_unprefixed_witness :
    GoMap.get (ToRedisFields (ParseRedisSettings
      [("other.y".toList, "1".toList), ("scooter.color".toList, "red".toList)]))
      "other.y".toList = none :=
  (resync_keeps_store_excludes_unprefixed
    (quietWorld [("other.y".toList, "1".toList), ("scooter.color".toList, "red".toList)]
      .absent .absent)).2.2.1 "other.y".toList (by decide) (by decide)

/-- C9, as stated, fails twice.  With the store holding `updates.x`, the pass
logs the warning for `updates.x` although the field carries a namespace prefix
and is a field of the document written.  With the store holding the bare
prefix `scooter.`, the field carries a namespace prefix and yet is excluded
from the document (and no warning is logged for it). -/
theorem resync_warning_mismatch :
    (LogEvent.ignoringField "updates.x".toList ∈
        logged (quietWorld [("updates.x".toList, "1".toList)] .absent .absent)
          (SaveSettingsToTOML (quietWorld [("updates.x".toList, "1".toList)] .absent .absent)).2 ∧
      (SaveSettingsToTOML (quietWorld [("updates.x".toList, "1".toList)] .absent .absent)).2.toml =
        .present (ParseRedisSettings [("updates.x".toList, "1".toList)]) ∧
      GoMap.get (ToRedisFields (ParseRedisSettings [("updates.x".toList, "1".toList)]))
        "updates.x".toList = some (Value.str "1".toList) ∧
      nsPrefixed "updates.x".toList = true) ∧
    (nsPrefixed "scooter.".toList = true ∧
      GoMap.get (ToRedisFields (ParseRedisSettings [("scooter.".toList, "1".toList)]))
        "scooter.".toList = none ∧
      LogEvent.ignoringField "scooter.".toList ∉
        logged (quietWorld [("scooter.".toList, "1".toList)] .absent .absent)
          (SaveSettingsToTOML (quietWorld [("scooter.".toList, "1".toList)] .absent .absent)).2) := by
  refine ⟨⟨?_, ?_, ?_, ?_⟩, ?_, ?_, ?_⟩ <;> decide

/-- C9, amended: in a re-sync pass that reads the store, a store field is
excluded from the document written to the file exactly when its name is not a
namespace prefix followed by a non-empty key (otherwise it is in the document
with its value); a field whose name carries none of the four prefixes is logged
with an 'ignoring field' warning; a field made of `scooter.` or `cellular.` and
a non-empty key is not. -/
theorem resync_exclusion_and_warnings (w : World) (hget : w.getFails = false)
    (hwf : GoMap.WF w.store) (f v : GoString) (hf : GoMap.get w.store f = some v) :
    (GoMap.get (ToRedisFields (ParseRedisSettings w.store)) f = none ↔ recognised f = false) ∧
    (recognised f = true →
      GoMap.get (ToRedisFields (ParseRedisSettings w.store)) f = some (Value.str v)) ∧
    (nsPrefixed f = false →
      LogEvent.ignoringField f ∈ logged w (SaveSettingsToTOML w).2) ∧
    (hasKey scooterPrefix f = true ∨ hasKey cellularPrefix f = true →
      LogEvent.ignoringField f ∉ logged w (SaveSettingsToTOML w).2) ∧
    (w.saveFails = false →
      (SaveSettingsToTOML w).2.toml = .present (ParseRedisSettings w.store)) := by
  have hlog : ∃ tl, logged w (SaveSettingsToTOML w).2 = passLog w.store ++ tl ∧
      ∀ e ∈ tl, e = LogEvent.saved w.store.length := by
    rw [save_eq]
    simp only [hget, Bool.false_eq_true, if_false]
    split_ifs
    · exact ⟨[], by rw [List.append_nil]; exact logged_append _ _ _ rfl, by simp⟩
    · exact ⟨[.saved w.store.length],
        logged_append _ _ _ (by simp only [List.append_assoc]), by simp⟩
  obtain ⟨tl, htl, hsaved⟩ := hlog
  have hmem : LogEvent.ignoringField f ∈ logged w (SaveSettingsToTOML w).2 ↔
      LogEvent.ignoringField f ∈ passLog w.store := by
    rw [htl, List.mem_append]
    constructor
    · rintro (h | h)
      · exact h
      · cases hsaved _ h
    · exact Or.inl
  have hkeys : f ∈ GoMap.keys w.store := GoMap.mem_keys_of_mem _ _ _ (GoMap.mem_of_get _ _ _ hf)
  have hflat := get_flatten_parse w.store hwf f
  refine ⟨?_, ?_, ?_, ?_, ?_⟩
  · rw [hflat, hf]
    cases recognised f <;> simp
  · intro hr
    rw [hflat, hf, hr]
    rfl
  · intro hns
    rw [hmem, mem_passLog_ignoring]
    unfold nsPrefixed at hns
    simp only [Bool.or_eq_false_iff] at hns
    exact ⟨hkeys, hns.1.1.1, hns.1.1.2⟩
  · intro hk
    rw [hmem, mem_passLog_ignoring]
    rintro ⟨_, h1, h2⟩
    rcases hk with hk | hk
    · obtain ⟨k, _, hk⟩ := (hasKey_iff _ f).mp hk
      have := (hasPrefix_iff f scooterPrefix).mpr ⟨k, hk⟩
      rw [h1] at this
      exact Bool.false_ne_true this
    · obtain ⟨k, _, hk⟩ := (hasKey_iff _ f).mp hk
      have := (hasPrefix_iff f cellularPrefix).mpr ⟨k, hk⟩
      rw [h2] at this
      exact Bool.false_ne_true this
  · intro hs
    rw [save_eq]
    simp only [hget, hs, Bool.false_eq_true, if_false]

theorem resync_exclusion_and_warnings_witness :
    LogEvent.ignoringField "other.y".toList ∈
      logged (quietWorld [("other.y".toList, "1".toList)] .absent .absent)
        (SaveSettingsToTOML (quietWorld [("other.y".toList, "1".toList)] .absent .absent)).2 :=
  (resync_exclusion_and_warnings (quietWorld [("other.y".toList, "1".toList)] .absent .absent)
    rfl (by unfold GoMap.WF; decide) "other.y".toList "1".toList (by decide)).2.2.1 (by decide)

/-! ## The watch loop -/

/-- C3, as stated, fails: with an empty live store (no failure anywhere), the
notification for `cellular.apn` is handled without any call of the
configurator's APN update. -/
theorem apn_notification_without_update :
    (quietWorld [] .absent .absent).net.updateCalls = [] ∧
    (handleMessage { Channel := "settings".toList, Payload := "cellular.apn".toList }
      (quietWorld [] .absent .absent)).net.updateCalls = [] := by
  decide

/-- C3, amended: handling one change notification calls the configurator's APN
update exactly once, with the stored value, when the field name is exactly
`cellular.apn`, the store can be read and it holds a non-empty value for
`cellular.apn`; it does not call it when the field name is anything else, nor
when the store holds no value or the empty value for `cellular.apn`. -/
theorem selective_apn_propagation (w : World) (msg : Message) :
    (msg.Channel = SettingsChannel → msg.Payload = cellularApnField → w.getFails = false →
      ∀ apn, GoMap.get w.store cellularApnField = some apn → apn ≠ [] →
        (handleMessage msg w).net.updateCalls = w.net.updateCalls ++ [apn]) ∧
    (msg.Payload ≠ cellularApnField →
      (handleMessage msg w).net.updateCalls = w.net.updateCalls) ∧
    (GoMap.get w.store cellularApnField = none ∨ GoMap.get w.store cellularApnField = some [] →
      (handleMessage msg w).net.updateCalls = w.net.updateCalls) := by
  refine ⟨?_, ?_, ?_⟩
  · intro hc hp hg apn hget hne
    rw [handle_calls]
    simp [hc, hp, hg, hget, hne]
  · intro hp
    rw [handle_calls]
    simp [hp]
  · intro h
    rw [handle_calls]
    rcases h with h | h <;> simp [h]

theorem selective_apn_propagation_witness :
    (handleMessage { Channel := SettingsChannel, Payload := cellularApnField }
      (quietWorld [("cellular.apn".toList, "internet".toList)] .absent .absent)).net.updateCalls =
      (quietWorld [("cellular.apn".toList, "internet".toList)] .absent .absent).net.updateCalls ++
        ["internet".toList] :=
  (selective_apn_propagation
    (quietWorld [("cellular.apn".toList, "internet".toList)] .absent .absent)
    { Channel := SettingsChannel, Payload := cellularApnField }).1 rfl rfl rfl
    "internet".toList (by decide) (by decide)

/-! ## The initial load -/

/-- C4, as stated, fails: with the configuration file absent and the store's
delete failing, `LoadSettingsFromTOML` returns the error of the delete and the
live-store record still holds what it held before. -/
theorem load_absent_file_flush_failure :
    ({ quietWorld [("scooter.color".toList, "red".toList)] .absent .absent with
        flushFails := true }).toml = .absent ∧
    (LoadSettingsFromTOML
      { quietWorld [("scooter.color".toList, "red".toList)] .absent .absent with
        flushFails := true }).1 = .error .flush ∧
    (LoadSettingsFromTOML
      { quietWorld [("scooter.color".toList, "red".toList)] .absent .absent with
        flushFails := true }).2.store = [("scooter.color".toList, "red".toList)] :=
  ⟨rfl, rfl, rfl⟩

/-- C4, amended: whenever `LoadSettingsFromTOML` returns success, either the
configuration file is absent and the live-store record is empty, or the record
holds exactly the flattened fields of the file's document, each as the string
it was flattened to, whatever the store held before; and with the file absent
and the store's delete succeeding, the load does return success with an empty
record. -/
theorem load_makes_file_authoritative (w : World) :
    ((LoadSettingsFromTOML w).1 = .ok () →
      (w.toml = .absent ∧ (LoadSettingsFromTOML w).2.store = []) ∨
      ∃ cfg, w.toml = .present cfg ∧
        ∀ x, (GoMap.get (LoadSettingsFromTOML w).2.store x).map Value.str =
          GoMap.get (ToRedisFields cfg) x) ∧
    (w.toml = .absent → w.flushFails = false →
      (LoadSettingsFromTOML w).1 = .ok () ∧ (LoadSettingsFromTOML w).2.store = []) := by
  rw [load_eq]
  constructor
  · cases hf : w.flushFails with
    | true => intro h; cases h
    | false =>
      simp only [Bool.false_eq_true, if_false]
      cases ht : w.toml with
      | absent => intro _; exact Or.inl ⟨rfl, rfl⟩
      | unreadable => intro h; cases h
      | present cfg =>
        simp only []
        by_cases hc : (decide ((ToRedisFields cfg).length > 0) && w.setFails) = true
        · rw [if_pos hc]; intro h; cases h
        · rw [if_neg hc]
          intro _
          refine Or.inr ⟨cfg, rfl, fun x => ?_⟩
          rw [sync_store]
          exact get_store_of_fields cfg x
  · intro ht hf
    simp only [ht, hf, Bool.false_eq_true, if_false]
    exact ⟨trivial, trivial⟩

theorem load_makes_file_authoritative_witness :
    (LoadSettingsFromTOML (quietWorld [("scooter.color".toList, "red".toList)] .absent
      .absent)).1 = .ok () ∧
    (LoadSettingsFromTOML (quietWorld [("scooter.color".toList, "red".toList)] .absent
      .absent)).2.store = [] :=
  (load_makes_file_authoritative
    (quietWorld [("scooter.color".toList, "red".toList)] .absent .absent)).2 rfl rfl

/-- C7: every field that flattening a configuration document produces has a
name that begins with one of the four namespace prefixes and a value that is a
string; and after the initial load the live store is either untouched (its
delete failed, nothing was written) or holds only fields whose names begin with
a namespace prefix. -/
theorem flattened_fields_prefixed_strings (cfg : Config) (w : World) :
    (∀ e ∈ ToRedisFields cfg, nsPrefixed e.1 = true ∧ ∃ s, e.2 = Value.str s) ∧
    ((LoadSettingsFromTOML w).2.store = w.store ∨
      ∀ f ∈ GoMap.keys (LoadSettingsFromTOML w).2.store, nsPrefixed f = true) :=
  ⟨flatten_entries cfg, load_store_prefixed w⟩

theorem flattened_fields_prefixed_strings_witness :
    nsPrefixed "cellular.apn".toList = true ∧
      ∃ s, Value.str "internet".toList = Value.str s :=
  (flattened_fields_prefixed_strings
    { Scooter := [], Cellular := [("apn".toList, .str "internet".toList)], Updates := [],
      Dashboard := [] }
    (quietWorld [] .absent .absent)).1 ("cellular.apn".toList, .str "internet".toList)
    (by decide)

/-- C8, as stated, fails: with a parsed document whose cellular table holds
`apn = "internet"`, a profile file that holds `apn=old` and a store whose write
fails, `LoadSettingsFromTOML` returns the error of the write and never calls
the configurator's APN update, although the APN differs.  The same happens when
the store's delete fails. -/
theorem startup_apn_sync_store_failure :
    (staleApnWorld.toml = .present apnDocument ∧
      GoMap.get apnDocument.Cellular "apn".toList = some (.str "internet".toList) ∧
      (GetCurrentAPN staleApnWorld.net).toOption = some "old".toList) ∧
    ((LoadSettingsFromTOML { staleApnWorld with setFails := true }).1 =
        .error .writeSettings ∧
      (LoadSettingsFromTOML { staleApnWorld with setFails := true }).2.net.updateCalls = []) ∧
    ((LoadSettingsFromTOML { staleApnWorld with flushFails := true }).1 = .error .flush ∧
      (LoadSettingsFromTOML { staleApnWorld with flushFails := true }).2.net.updateCalls =
        []) :=
  ⟨⟨rfl, by decide, by decide⟩, ⟨rfl, by decide⟩, ⟨rfl, by decide⟩⟩

/-- C8, amended: in an initial load with a successfully parsed document in
which the store's delete succeeds and the store's write succeeds (or there is
no field to write), the configurator's APN update is called, once and with the
stringified value, exactly when the cellular table has an `apn` key whose
value is not the empty string and the APN read from the profile file differs
from the stringified value; and the load returns success whatever the
configurator's read or update returns. -/
theorem startup_apn_sync (w : World) (cfg : Config) (hflush : w.flushFails = false)
    (htoml : w.toml = .present cfg) (hset : w.setFails = false ∨ ToRedisFields cfg = []) :
    (LoadSettingsFromTOML w).1 = .ok () ∧
    ((∃ apn cur, GoMap.get cfg.Cellular "apn".toList = some apn ∧ apn ≠ Value.str [] ∧
          GetCurrentAPN w.net = .ok cur ∧ cur ≠ apn.sprint) →
      ∃ apn, GoMap.get cfg.Cellular "apn".toList = some apn ∧
        (LoadSettingsFromTOML w).2.net.updateCalls = w.net.updateCalls ++ [apn.sprint]) ∧
    (¬ (∃ apn cur, GoMap.get cfg.Cellular "apn".toList = some apn ∧ apn ≠ Value.str [] ∧
          GetCurrentAPN w.net = .ok cur ∧ cur ≠ apn.sprint) →
      (LoadSettingsFromTOML w).2.net.updateCalls = w.net.updateCalls) := by
  have hc : (decide ((ToRedisFields cfg).length > 0) && w.setFails) = false := by
    rcases hset with h | h
    · rw [h, Bool.and_false]
    · rw [h]; rfl
  rw [load_eq]
  simp only [hflush, htoml, hc, Bool.false_eq_true, if_false]
  refine ⟨trivial, ?_, ?_⟩
  · rintro ⟨apn, cur, hget, hne, hcur, hdiff⟩
    refine ⟨apn, hget, ?_⟩
    rw [sync_calls]
    simp only [hget, hcur, hne, hdiff, ne_eq, not_false_eq_true, if_true]
  · intro hno
    rw [sync_calls]
    cases hget : GoMap.get cfg.Cellular "apn".toList with
    | none => simp
    | some apn =>
      simp only []
      by_cases hne : apn ≠ Value.str []
      · rw [if_pos hne]
        cases hcur : GetCurrentAPN w.net with
        | error e => simp
        | ok cur =>
          simp only []
          by_cases hdiff : cur ≠ apn.sprint
          · exact absurd ⟨apn, cur, hget, hne, hcur, hdiff⟩ hno
          · rw [if_neg hdiff]; simp
      · rw [if_neg hne]; simp

theorem startup_apn_sync_witness :
    (LoadSettingsFromTOML (quietWorld []
      (.present { Scooter := [], Cellular := [("apn".toList, .str "internet".toList)],
                  Updates := [], Dashboard := [] })
      .unreadable)).1 = .ok () :=
  (startup_apn_sync
    (quietWorld []
      (.present { Scooter := [], Cellular := [("apn".toList, .str "internet".toList)],
                  Updates := [], Dashboard := [] })
      .unreadable)
    { Scooter := [], Cellular := [("apn".toList, .str "internet".toList)],
      Updates := [], Dashboard := [] } rfl rfl (Or.inl rfl)).1

/-! ## The profile file -/

/-- C2, as stated, fails: with the profile `[gsm]`, `apn=old` (two lines) and
the APN value `a`, newline, `b`, `UpdateAPN` replaces the `apn=` line of the
`[gsm]` section and writes a content of three lines.  And with two `apn=`
lines in the `[gsm]` section, both are replaced, so that no single line is the
only one to change. -/
theorem updateAPN_newline_adds_line :
    (isApnLineInGsm (Split "[gsm]\napn=old".toList '\n') 1 ∧
      (UpdateAPN "a\nb".toList (quietNet (.present "[gsm]\napn=old".toList))).2.profile =
        .present "[gsm]\napn=a\nb".toList ∧
      (Split "[gsm]\napn=old".toList '\n').length = 2 ∧
      (Split "[gsm]\napn=a\nb".toList '\n').length = 3) ∧
    (UpdateAPN "x".toList (quietNet (.present "[gsm]\napn=a\napn=b".toList))).2.profile =
      .present "[gsm]\napn=x\napn=x".toList := by
  refine ⟨⟨⟨by decide, by decide, 0, by decide, by decide, by decide⟩, by decide, by decide,
    by decide⟩, by decide⟩

/-- C2, amended: for every profile file content with an `apn=` line inside a
`[gsm]` section and every APN value without a newline, `UpdateAPN` (its write
working) leaves a content that, split on newlines, has as many lines as the
original, in which every `apn=` line inside a `[gsm]` section has become
`apn=<value>` and every other line is the original line at its position. -/
theorem updateAPN_rewrites_in_place (env : NetEnv) (content apn : GoString)
    (hfile : env.profile = .present content) (hwrite : env.writeFails = false)
    (hrew : ∃ i, isApnLineInGsm (Split content '\n') i) (hnl : '\n' ∉ apn) :
    ∃ content', (UpdateAPN apn env).2.profile = .present content' ∧
      (Split content' '\n').length = (Split content '\n').length ∧
      ∀ i, i < (Split content '\n').length →
        (isApnLineInGsm (Split content '\n') i →
          (Split content' '\n').getD i [] = apnKey ++ apn) ∧
        (¬ isApnLineInGsm (Split content '\n') i →
          (Split content' '\n').getD i [] = (Split content '\n').getD i []) := by
  have hu := (updated_iff_apnLine apn (Split content '\n')).mpr hrew
  refine ⟨_, updateAPN_written apn env content hfile hwrite hu, ?_, ?_⟩
  · rw [split_join_updateScan apn content hnl, updateScan_length]
  · intro i hi
    rw [split_join_updateScan apn content hnl]
    obtain ⟨h1, h2⟩ := updateScan_getD apn (Split content '\n') false false i hi
    rw [reaches_false] at h1 h2
    constructor
    · rintro ⟨_, hp, hr⟩
      exact h1 ⟨hr, hp⟩
    · intro hn
      apply h2
      rintro ⟨hr, hp⟩
      exact hn ⟨hi, hp, hr⟩

theorem updateAPN_rewrites_in_place_witness :
    ∃ content',
      (UpdateAPN "internet".toList (quietNet (.present "[gsm]\napn=old\n".toList))).2.profile =
        .present content' ∧
      (Split content' '\n').length = (Split "[gsm]\napn=old\n".toList '\n').length ∧
      ∀ i, i < (Split "[gsm]\napn=old\n".toList '\n').length →
        (isApnLineInGsm (Split "[gsm]\napn=old\n".toList '\n') i →
          (Split content' '\n').getD i [] = apnKey ++ "internet".toList) ∧
        (¬ isApnLineInGsm (Split "[gsm]\napn=old\n".toList '\n') i →
          (Split content' '\n').getD i [] = (Split "[gsm]\napn=old\n".toList '\n').getD i []) :=
  updateAPN_rewrites_in_place (quietNet (.present "[gsm]\napn=old\n".toList))
    "[gsm]\napn=old\n".toList "internet".toList rfl rfl
    ⟨1, by decide, by decide, 0, by decide, by decide, by decide⟩ (by decide)

/-- C6: for every profile file content without a `[gsm]` header line, or
without an `apn=` line inside a `[gsm]` section, and every APN value,
`UpdateAPN` returns success, leaves the content of the profile file as it was
and does not run the restart of the network service. -/
theorem updateAPN_noop_without_apn_line (env : NetEnv) (content apn : GoString)
    (hfile : env.profile = .present content)
    (h : (∀ l ∈ Split content '\n', TrimSpace l ≠ gsmHeader) ∨
      (∀ i, ¬ isApnLineInGsm (Split content '\n') i)) :
    (UpdateAPN apn env).1 = .ok () ∧ (UpdateAPN apn env).2.profile = .present content ∧
      (UpdateAPN apn env).2.restarts = env.restarts := by
  apply updateAPN_not_updated apn env content hfile
  have hno : ¬ ∃ i, isApnLineInGsm (Split content '\n') i := by
    rintro ⟨i, hi, hp, j, hj, hg, _⟩
    rcases h with h | h
    · exact h _ (getD_mem _ j (by omega)) hg
    · exact h i ⟨hi, hp, j, hj, hg, by assumption⟩
  cases hu : (updateScan apn (Split content '\n') false false).2 with
  | false => rfl
  | true => exact absurd ((updated_iff_apnLine apn _).mp hu) hno

theorem updateAPN_noop_without_apn_line_witness :
    (UpdateAPN "internet".toList (quietNet (.present "[connection]\nid=wwan\n".toList))).1 =
        .ok () ∧
      (UpdateAPN "internet".toList
          (quietNet (.present "[connection]\nid=wwan\n".toList))).2.profile =
        .present "[connection]\nid=wwan\n".toList ∧
      (UpdateAPN "internet".toList
          (quietNet (.present "[connection]\nid=wwan\n".toList))).2.restarts =
        (quietNet (.present "[connection]\nid=wwan\n".toList)).restarts :=
  updateAPN_noop_without_apn_line (quietNet (.present "[connection]\nid=wwan\n".toList))
    "[connection]\nid=wwan\n".toList "internet".toList rfl (Or.inl (by decide))

/-- C10, as stated, fails twice.  With the profile `[gsm]`, `apn=old` and the
APN value `x` followed by a blank, `UpdateAPN` replaces the line and
`GetCurrentAPN` then returns `x` without the blank.  With a profile whose first
`[gsm]` section is closed by `[other]` before a second `[gsm]` section holds the
`apn=` line, `UpdateAPN` replaces that line and `GetCurrentAPN`, which stops at
`[other]`, returns the empty string. -/
theorem read_after_write_mismatch :
    ((updateScan "x ".toList (Split "[gsm]\napn=old".toList '\n') false false).2 = true ∧
      (GetCurrentAPN (UpdateAPN "x ".toList
          (quietNet (.present "[gsm]\napn=old".toList))).2).toOption = some "x".toList ∧
      "x".toList ≠ "x ".toList) ∧
    ((updateScan "x".toList (Split "[gsm]\n[other]\n[gsm]\napn=old".toList '\n') false false).2 =
        true ∧
      (UpdateAPN "x".toList
          (quietNet (.present "[gsm]\n[other]\n[gsm]\napn=old".toList))).2.profile =
        .present "[gsm]\n[other]\n[gsm]\napn=x".toList ∧
      (GetCurrentAPN (UpdateAPN "x".toList
          (quietNet (.present "[gsm]\n[other]\n[gsm]\napn=old".toList))).2).toOption =
        some [] ∧
      ([] : GoString) ≠ "x".toList) := by
  refine ⟨⟨?_, ?_, ?_⟩, ?_, ?_, ?_, ?_⟩ <;> decide

/-- C10, amended: for every profile file content in which the scan of
`GetCurrentAPN` itself finds an `apn=` line (one inside the first `[gsm]`
section, before any other section header), and every APN value that holds no
newline and does not end with white space, `UpdateAPN` (its write working)
rewrites the file and `GetCurrentAPN` on the rewritten file returns exactly
that value. -/
theorem read_after_write_apn (env : NetEnv) (content apn old : GoString)
    (hfile : env.profile = .present content) (hwrite : env.writeFails = false)
    (hfound : getScan (Split content '\n') false = some old)
    (hnl : '\n' ∉ apn) (hsp : ∀ c, apn.getLast? = some c → isSpace c = false) :
    (∃ content', (UpdateAPN apn env).2.profile = .present content') ∧
      GetCurrentAPN (UpdateAPN apn env).2 = .ok apn := by
  obtain ⟨hu, hget⟩ := getScan_after_update apn hsp (Split content '\n') false false old hfound
  have hw := updateAPN_written apn env content hfile hwrite hu
  refine ⟨⟨_, hw⟩, ?_⟩
  unfold GetCurrentAPN
  rw [hw]
  simp only []
  rw [split_join_updateScan apn content hnl, hget]

theorem read_after_write_apn_witness :
    (∃ content', (UpdateAPN "internet".toList
        (quietNet (.present "[gsm]\napn=old\n".toList))).2.profile = .present content') ∧
      GetCurrentAPN (UpdateAPN "internet".toList
        (quietNet (.present "[gsm]\napn=old\n".toList))).2 = .ok "internet".toList :=
  read_after_write_apn (quietNet (.present "[gsm]\napn=old\n".toList))
    "[gsm]\napn=old\n".toList "internet".toList "old".toList rfl rfl (by decide) (by decide)
    (by decide)

end SettingsService
